import Mathlib

/-!
OpenOCR front end: the progressive ingestion pipeline.

A shallow embedding of the ingestion code of the React front end:

* `hooks/useFileProcessing.js`  (session state, `updateProgress`, `resetProcessing`)
* `hooks/useWebSocketOCR.js`    (`processFileStream`, the streaming transport client)
* `components/FileUpload.js`    (`handleUpload`, `processWithStandardAPI`)
* `hooks/useOCRService.js`      (`processFile`, the batch transport client)
* `components/PageResult.js`    (the word count shown with a page)

Conventions of the embedding.

* React state is passed explicitly; a functional update `setX(prev => f prev)` is `f` applied
  to the state, in program order.
* The network is an input: for every queued file a `Transport` value says which messages the
  socket would deliver and what the batch call would return or throw.
* JavaScript numbers are `JSNum`: rationals together with `NaN`, `+Infinity` and
  `-Infinity`. The operators `/` and `*` round their exact result to the nearest binary64
  number, ties to even, as IEEE 754 does (`JSNum.ofRat`). The integers of the protocol (page
  numbers, totals) are taken as they are written; the sign of zero is not modelled.
* `Date.now()` (the `processingTime` field) and `console` output are left out.
-/

namespace OpenOCR

/-! ## JavaScript numbers -/

/-- A JavaScript number: a finite value (an exact rational) or one of the special values. -/
inductive JSNum where
  | fin (q : ℚ)
  | nan
  | posInf
  | negInf
deriving DecidableEq

namespace JSNum

/-- The nearest integer, a tie going to the even one. -/
def roundEven (x : ℚ) : ℤ :=
  if x - ⌊x⌋ < 1 / 2 then ⌊x⌋
  else if 1 / 2 < x - ⌊x⌋ then ⌊x⌋ + 1
  else if ⌊x⌋ % 2 = 0 then ⌊x⌋ else ⌊x⌋ + 1

/-- The greatest `k` with `2 ^ k ≤ n`, for `1 ≤ n ≤ fuel`. -/
def log2Fuel : ℕ → ℕ → ℕ
  | 0, _ => 0
  | fuel + 1, n => if 2 ≤ n then log2Fuel fuel (n / 2) + 1 else 0

/-- The least `k` with `n ≤ 2 ^ k`, for `n ≤ fuel`. -/
def clog2Fuel : ℕ → ℕ → ℕ
  | 0, _ => 0
  | fuel + 1, n => if 2 ≤ n then clog2Fuel fuel ((n + 1) / 2) + 1 else 0

/-- The binary exponent of a positive `a`: the greatest `k` with `2 ^ k ≤ a`. -/
def binade (a : ℚ) : ℤ :=
  if 1 ≤ a then (log2Fuel ⌊a⌋₊ ⌊a⌋₊ : ℤ) else -(clog2Fuel ⌈a⁻¹⌉₊ ⌈a⁻¹⌉₊ : ℤ)

/-- The exponent of the spacing of the binary64 numbers around a positive `a`: 52 below the
exponent of `a`, and `-1074` in the subnormal range. -/
def ulpExp (a : ℚ) : ℤ :=
  max (binade a) (-1022) - 52

/-- The multiple of the spacing that is nearest to a positive `a`, ties to even. -/
def nearest (a : ℚ) : ℚ :=
  roundEven (a / 2 ^ ulpExp a) * 2 ^ ulpExp a

/-- The binary64 number that an exact result is rounded to: round to nearest, ties to even,
with overflow to an infinity. -/
def ofRat (q : ℚ) : JSNum :=
  if q = 0 then fin 0
  else if 0 < q then (if nearest q < 2 ^ 1024 then fin (nearest q) else posInf)
  else (if nearest (-q) < 2 ^ 1024 then fin (-nearest (-q)) else negInf)

/-- The operator `/` of JavaScript: dividing by zero does not throw, it yields `NaN` or an
infinity; a finite quotient is rounded to binary64. -/
def div : JSNum → JSNum → JSNum
  | nan, _ => nan
  | _, nan => nan
  | fin a, fin b =>
      if b = 0 then (if a = 0 then nan else if 0 < a then posInf else negInf)
      else ofRat (a / b)
  | fin _, posInf => fin 0
  | fin _, negInf => fin 0
  | posInf, fin b => if 0 ≤ b then posInf else negInf
  | negInf, fin b => if 0 ≤ b then negInf else posInf
  | posInf, posInf => nan
  | posInf, negInf => nan
  | negInf, posInf => nan
  | negInf, negInf => nan

/-- The operator `*` of JavaScript; a finite product is rounded to binary64. -/
def mul : JSNum → JSNum → JSNum
  | nan, _ => nan
  | _, nan => nan
  | fin a, fin b => ofRat (a * b)
  | fin a, posInf => if a = 0 then nan else if 0 < a then posInf else negInf
  | fin a, negInf => if a = 0 then nan else if 0 < a then negInf else posInf
  | posInf, fin b => if b = 0 then nan else if 0 < b then posInf else negInf
  | negInf, fin b => if b = 0 then nan else if 0 < b then negInf else posInf
  | posInf, posInf => posInf
  | posInf, negInf => negInf
  | negInf, posInf => negInf
  | negInf, negInf => posInf

/-- The function `Math.round`: the nearest integer, a tie going up; `NaN` and the infinities
are returned unchanged. -/
def round : JSNum → JSNum
  | fin q => fin (⌊q + 1 / 2⌋ : ℤ)
  | nan => nan
  | posInf => posInf
  | negInf => negInf

/-- The comparison `<=` of JavaScript: false as soon as one side is `NaN`. -/
def le : JSNum → JSNum → Bool
  | nan, _ => false
  | _, nan => false
  | negInf, _ => true
  | _, posInf => true
  | fin a, fin b => decide (a ≤ b)
  | fin _, negInf => false
  | posInf, fin _ => false
  | posInf, negInf => false

/-- A number that is neither `NaN` nor infinite (`Number.isFinite`). -/
def isFinite : JSNum → Bool
  | fin _ => true
  | _ => false

end JSNum

/-! ## `useFileProcessing.js` -/

/-- The object held in `processingProgress`. It starts as `{}`; `updateProgress` is its only
writer in the ingestion code, so it has at most the three keys below (`none`: key absent). -/
structure Progress where
  current : Option JSNum := none
  total : Option JSNum := none
  percentage : Option JSNum := none
deriving DecidableEq

/-- The body of `updateProgress`: `prev => ({...prev, current, total, percentage:
Math.round((current / total) * 100)})`. -/
def updateProgress (prev : Progress) (current total : JSNum) : Progress :=
  { prev with
    current := some current
    total := some total
    percentage := some (JSNum.round (JSNum.mul (JSNum.div current total) (JSNum.fin 100))) }

/-! ## Values that may be absent, and the operator `||` -/

/-- The expression `x || ''` for a string that may be absent. -/
def orEmpty (x : Option String) : String :=
  match x with
  | some s => s
  | none => ""

/-- The expression `x || null` for a string that may be absent: the empty string is falsy. -/
def strOrNull (x : Option String) : Option String :=
  match x with
  | some s => if s = "" then none else some s
  | none => none

/-- The expression `x || null` for a number that may be absent: `0` and `NaN` are falsy. -/
def numOrNull (x : Option JSNum) : Option JSNum :=
  match x with
  | some (JSNum.fin q) => if q = 0 then none else some (JSNum.fin q)
  | some JSNum.nan => none
  | some v => some v
  | none => none

/-- The class `\s` of a JavaScript regular expression. -/
def isJsSpace (c : Char) : Bool :=
  c.val = 0x09 || c.val = 0x0A || c.val = 0x0B || c.val = 0x0C || c.val = 0x0D ||
  c.val = 0x20 || c.val = 0xA0 || c.val = 0x1680 ||
  (0x2000 ≤ c.val && c.val ≤ 0x200A) ||
  c.val = 0x2028 || c.val = 0x2029 || c.val = 0x202F || c.val = 0x205F ||
  c.val = 0x3000 || c.val = 0xFEFF

/-- Number of maximal runs of `\s` characters in a list of characters; `inRun` says that the
previous character was one. -/
def spaceRuns : Bool → List Char → Nat
  | _, [] => 0
  | inRun, c :: cs =>
      if isJsSpace c then (if inRun then 0 else 1) + spaceRuns true cs
      else spaceRuns false cs

/-- The expression `t.split(/\s+/).length`: one more than the number of separators, so `1`
for the empty string. -/
def splitLength (t : String) : Nat :=
  spaceRuns false t.toList + 1

/-! ## Data model -/

/-- A queued file, as far as the ingestion code reads it: `file.name` and `file.type`. -/
structure FileJob where
  name : String
  type : String
deriving DecidableEq

/-- An element of `pageResults`. -/
structure PageRecord where
  fileIndex : Nat
  fileName : String
  pageNumber : Int
  extractedText : String
  tokenCount : Nat
  error : Option String
  confidence : Option JSNum
  preview : Option String
deriving DecidableEq

/-- The state of `useFileProcessing` together with the `useState` cells of `FileUpload` that
the ingestion code writes. The cell `allExtractedText` is not a field: an effect recomputes it
from `pageResults` (see `combinedText`). -/
structure Session where
  files : List FileJob := []
  currentProcessing : Option (Nat × String) := none
  pageResults : List PageRecord := []
  processingProgress : Progress := {}
  globalProcessing : Bool := false
  processingStage : String := ""
  totalPages : Int := 0
  processedPages : Int := 0
  showChat : Bool := false
  currentFileName : String := ""
  useRealTimeProcessing : Bool := true
deriving DecidableEq

/-! ## `useWebSocketOCR.js`: the streaming transport client -/

/-- What the socket hands to the client: a decoded message by `type`, a payload on which
`JSON.parse` throws, a decodable message of another type, or the `onerror` event. -/
inductive WsEvent where
  | pageStart (page totalPages : Int)
  | pageComplete (page : Int) (text error : Option String) (confidence : Option JSNum)
      (preview : Option String)
  | processingComplete
  | error (msg : String)
  | unknown
  | malformed
  | socketError
deriving DecidableEq

/-- The object passed to `onPageResult`. It has no `tokenCount` key. -/
structure StreamPage where
  pageNumber : Int
  extractedText : Option String
  error : Option String
  confidence : Option JSNum
  preview : Option String
deriving DecidableEq

/-- The object passed to `onProgress`. -/
structure StreamProgress where
  totalPages : Int
  currentPage : Int
  percentage : JSNum
deriving DecidableEq

/-- A callback invocation made by `processFileStream`. -/
inductive Callback where
  | pageResult (p : StreamPage)
  | progress (p : StreamProgress)
deriving DecidableEq

/-- The two local variables of one `processFileStream` call. -/
structure StreamState where
  totalPages : Int := 0
  processedPages : Nat := 0
deriving DecidableEq

/-- How the promise of `processFileStream` settles: `resolve()`, or `reject` with the message
of an `error` event (`some e`) or with the `onerror` event object (`none`). -/
inductive Settlement where
  | resolved
  | rejected (msg : Option String)
deriving DecidableEq

/-- The effect of one socket event: the new local variables, the callbacks invoked (in
order) and whether the promise is settled by it. -/
structure Handled where
  state : StreamState
  calls : List Callback
  settled : Option Settlement
deriving DecidableEq

/-- The handlers `ws.onmessage` and `ws.onerror`. -/
def onEvent (st : StreamState) : WsEvent → Handled
  | .pageStart page total =>
      { state := { st with totalPages := total }
        calls := [.progress { totalPages := total, currentPage := page, percentage := .fin 0 }]
        settled := none }
  | .pageComplete page text error confidence preview =>
      let processed := st.processedPages + 1
      let percentage :=
        JSNum.mul (JSNum.div (.fin processed) (.fin st.totalPages)) (.fin 100)
      { state := { st with processedPages := processed }
        calls :=
          [ .pageResult
              { pageNumber := page, extractedText := text, error := error,
                confidence := confidence, preview := preview },
            .progress
              { totalPages := st.totalPages, currentPage := page, percentage := percentage } ]
        settled := none }
  | .processingComplete => { state := st, calls := [], settled := some .resolved }
  | .error msg => { state := st, calls := [], settled := some (.rejected (some msg)) }
  | .unknown => { state := st, calls := [], settled := none }
  | .malformed => { state := st, calls := [], settled := none }
  | .socketError => { state := st, calls := [], settled := some (.rejected none) }

/-- One run of `processFileStream`: all callbacks made, how the promise settled (`none`: the
events ran out before it did, so it stays pending) and the local variables at that point. -/
structure StreamRun where
  calls : List Callback
  outcome : Option Settlement
  final : StreamState
deriving DecidableEq

/-- Events are handled in arrival order from the given local state. The event that settles
the promise is the last one handled: the socket is closed (`ws.close()`) or has failed. -/
def runStream (st : StreamState) : List WsEvent → StreamRun
  | [] => { calls := [], outcome := none, final := st }
  | ev :: rest =>
      let h := onEvent st ev
      match h.settled with
      | some o => { calls := h.calls, outcome := some o, final := h.state }
      | none =>
          let r := runStream h.state rest
          { r with calls := h.calls ++ r.calls }

/-- The call `processFileStream(file, onPageResult, onProgress)`: `totalPages` and
`processedPages` start at `0`. -/
def processFileStream (events : List WsEvent) : StreamRun :=
  runStream {} events

/-! ## `FileUpload.js`: the orchestrator -/

/-- An element of the array that `processFile` returns. -/
structure PageData where
  pageNumber : Option Int
  text : Option String
  extractedText : Option String
  tokenCount : Option Nat
  error : Option String
  confidence : Option JSNum
  preview : Option String
deriving DecidableEq

/-- The network's behaviour for one queued file: the events the socket delivers if the
streaming client is used, the values `processFile` passes to its upload-progress callback,
and what `processFile` returns (`ok`) or throws (`error`, the message of the `Error`). -/
structure Transport where
  wsEvents : List WsEvent
  uploadProgress : List JSNum
  batch : Except String (List PageData)

/-- An observable step of `handleUpload`: a write of the global processing flag, or the
invocation of a transport for the file at a queue index. -/
inductive Action where
  | setGlobalProcessing (value : Bool)
  | streamCall (fileIndex : Nat)
  | batchCall (fileIndex : Nat)
deriving DecidableEq

/-- The session state together with the actions performed so far. -/
structure Ctx where
  state : Session
  trace : List Action
deriving DecidableEq

/-- The object `processedResult` built by the page-result callback of `handleUpload`; the
payload has no `tokenCount`, so `pageResult.tokenCount || 0` is `0`. -/
def streamRecord (fileIndex : Nat) (file : FileJob) (p : StreamPage) : PageRecord :=
  { fileIndex := fileIndex
    fileName := file.name
    pageNumber := p.pageNumber
    extractedText := orEmpty p.extractedText
    tokenCount := 0
    error := strOrNull p.error
    confidence := numOrNull p.confidence
    preview := strOrNull p.preview }

/-- The page-result callback that `handleUpload` passes to `processFileStream`:
`setPageResults(prev => [...prev, processedResult])`. -/
def onPageResult (fileIndex : Nat) (file : FileJob) (s : Session) (p : StreamPage) : Session :=
  { s with pageResults := s.pageResults ++ [streamRecord fileIndex file p] }

/-- The progress callback that `handleUpload` passes to `processFileStream`. -/
def onProgress (s : Session) (p : StreamProgress) : Session :=
  { s with
    totalPages := p.totalPages
    processedPages := p.currentPage
    processingProgress := updateProgress s.processingProgress p.percentage (.fin 100) }

/-- The session after one callback invocation. -/
def applyCallback (fileIndex : Nat) (file : FileJob) (s : Session) : Callback → Session
  | .pageResult p => onPageResult fileIndex file s p
  | .progress p => onProgress s p

/-- The session after a sequence of callback invocations. -/
def applyCallbacks (fileIndex : Nat) (file : FileJob) (s : Session) (cs : List Callback) :
    Session :=
  cs.foldl (applyCallback fileIndex file) s

/-- The record built inside `results.map((pageData, pageIndex) => ...)`. -/
def batchRecord (fileIndex : Nat) (file : FileJob) (pageIndex : Nat) (d : PageData) :
    PageRecord :=
  { fileIndex := fileIndex
    fileName := file.name
    pageNumber :=
      match d.pageNumber with
      | some n => if n = 0 then (pageIndex : Int) + 1 else n
      | none => (pageIndex : Int) + 1
    extractedText :=
      match strOrNull d.text with
      | some t => t
      | none => orEmpty d.extractedText
    tokenCount :=
      match d.tokenCount with
      | some n => if n = 0 then splitLength (orEmpty d.text) else n
      | none => splitLength (orEmpty d.text)
    error := strOrNull d.error
    confidence := numOrNull d.confidence
    preview := strOrNull d.preview }

/-- The expression `results.map(...)` from page index `start` on. -/
def batchRecords (fileIndex : Nat) (file : FileJob) : Nat → List PageData → List PageRecord
  | _, [] => []
  | start, d :: ds => batchRecord fileIndex file start d :: batchRecords fileIndex file (start + 1) ds

/-- How a piece of `handleUpload` ends: normally, by throwing, or not at all (it awaits a
promise that never settles). -/
inductive Outcome where
  | done (c : Ctx)
  | threw (msg : String) (c : Ctx)
  | pending (c : Ctx)
deriving DecidableEq

/-- The function `processWithStandardAPI(file, fileIndex)`. -/
def processWithStandardAPI (t : Transport) (file : FileJob) (fileIndex : Nat) (c : Ctx) :
    Outcome :=
  let called : List Action := c.trace ++ [.batchCall fileIndex]
  let uploaded : Session :=
    t.uploadProgress.foldl
      (fun s progress =>
        { s with processingProgress := updateProgress s.processingProgress progress (.fin 100) })
      c.state
  match t.batch with
  | .error msg => .threw msg { state := uploaded, trace := called }
  | .ok results =>
      if 0 < results.length then
        .done
          { state :=
              { uploaded with
                pageResults := uploaded.pageResults ++ batchRecords fileIndex file 0 results
                totalPages := results.length
                processedPages := results.length }
            trace := called }
      else .done { state := uploaded, trace := called }

/-- The first three statements of the loop body: `setCurrentFileName(file.name)`,
`setCurrentProcessing({ fileIndex, fileName: file.name })`, `setProcessingStage('processing')`. -/
def markCurrent (s : Session) (file : FileJob) (fileIndex : Nat) : Session :=
  { s with
    currentFileName := file.name
    currentProcessing := some (fileIndex, file.name)
    processingStage := "processing" }

/-- The streaming branch of the loop body: the callbacks run as the events arrive, and a
rejected promise is caught and answered by `processWithStandardAPI`. -/
def streamBranch (t : Transport) (file : FileJob) (fileIndex : Nat) (c : Ctx) : Outcome :=
  let run := processFileStream t.wsEvents
  let streamed : Ctx :=
    { state := applyCallbacks fileIndex file c.state run.calls
      trace := c.trace ++ [.streamCall fileIndex] }
  match run.outcome with
  | some .resolved => .done streamed
  | some (.rejected _) => processWithStandardAPI t file fileIndex streamed
  | none => .pending streamed

/-- The body of the `for` loop of `handleUpload` for one entry `[fileIndex, file]`. -/
def processEntry (t : Transport) (file : FileJob) (fileIndex : Nat) (c : Ctx) : Outcome :=
  let marked : Ctx := { c with state := markCurrent c.state file fileIndex }
  let isPDF : Bool := file.type = "application/pdf"
  if isPDF && c.state.useRealTimeProcessing then streamBranch t file fileIndex marked
  else processWithStandardAPI t file fileIndex marked

/-- The loop `for (const [fileIndex, file] of files.entries())`, from index `fileIndex` on;
`net i` is the network's behaviour for the file at index `i`. -/
def processEntries (net : Nat → Transport) : Nat → List FileJob → Ctx → Outcome
  | _, [], c => .done c
  | fileIndex, file :: rest, c =>
      match processEntry (net fileIndex) file fileIndex c with
      | .done c1 => processEntries net (fileIndex + 1) rest c1
      | .threw msg c1 => .threw msg c1
      | .pending c1 => .pending c1

/-- The record appended by the `catch` block of `handleUpload`. -/
def errorResult (files : List FileJob) (msg : String) : PageRecord :=
  { fileIndex := 0
    fileName :=
      match files.head? with
      | some f => if f.name = "" then "Unknown" else f.name
      | none => "Unknown"
    pageNumber := 1
    extractedText := ""
    tokenCount := 0
    error := some ("Processing failed: " ++ msg)
    confidence := none
    preview := none }

/-- The `finally` block of `handleUpload`. -/
def finish (c : Ctx) : Ctx :=
  { state :=
      { c.state with currentProcessing := none, globalProcessing := false, processingStage := "" }
    trace := c.trace ++ [.setGlobalProcessing false] }

/-- One call of `handleUpload`: the session and the actions at the end, and whether the call
returns at all. -/
structure Run where
  state : Session
  trace : List Action
  returned : Bool
deriving DecidableEq

/-- The function `handleUpload`, started in session `s` with an empty action trace. -/
def handleUpload (net : Nat → Transport) (s : Session) : Run :=
  if s.files.length = 0 then { state := s, trace := [], returned := true }
  else
    let started : Ctx :=
      { state := { s with globalProcessing := true, pageResults := [], showChat := false }
        trace := [.setGlobalProcessing true] }
    match processEntries net 0 s.files started with
    | .done c =>
        let e := finish c
        { state := e.state, trace := e.trace, returned := true }
    | .threw msg c =>
        let caught : Ctx :=
          { c with
            state :=
              { c.state with pageResults := c.state.pageResults ++ [errorResult s.files msg] } }
        let e := finish caught
        { state := e.state, trace := e.trace, returned := true }
    | .pending c => { state := c.state, trace := c.trace, returned := false }

/-- The context in which a piece of `handleUpload` ends. -/
def Outcome.ctx : Outcome → Ctx
  | .done c => c
  | .threw _ c => c
  | .pending c => c

/-! ## `FileUpload.js`: selecting files, clearing, the combined text -/

/-- The handler `handleFileChange`, given `Array.from(e.target.files)`. Its call
`setAllExtractedText('')` is covered by `combinedText`: the text is recomputed from
`pageResults` by an effect, and is empty for no page results. -/
def handleFileChange (selectedFiles : List FileJob) (s : Session) : Session :=
  { s with
    files := selectedFiles
    pageResults := []
    currentProcessing := none
    currentFileName := ""
    showChat := false }

/-- The handler `handleDrop`, given the dropped files: the same five setters. -/
def handleDrop (droppedFiles : List FileJob) (s : Session) : Session :=
  { s with
    files := droppedFiles
    pageResults := []
    currentProcessing := none
    currentFileName := ""
    showChat := false }

/-- The function `resetProcessing` of `useFileProcessing`. -/
def resetProcessing (s : Session) : Session :=
  { s with
    files := []
    pageResults := []
    processingProgress := {}
    currentProcessing := none
    globalProcessing := false
    processingStage := ""
    totalPages := 0
    processedPages := 0 }

/-- The handler `handleClearAll`: `resetProcessing()`, then the setters of `FileUpload`
(`setCopyAllStatus('idle')` concerns the clipboard button only). -/
def handleClearAll (s : Session) : Session :=
  { resetProcessing s with currentFileName := "", showChat := false }

/-- The method `Array.prototype.join` on strings. -/
def jsJoin (sep : String) : List String → String
  | [] => ""
  | [x] => x
  | x :: y :: rest => x ++ sep ++ jsJoin sep (y :: rest)

/-- Truthiness of `result.error`: `null` and the empty string are falsy. -/
def hasError (r : PageRecord) : Bool :=
  match r.error with
  | some e => e ≠ ""
  | none => false

/-- The filter `result => !result.error && result.extractedText` of the combined text. -/
def keptInText (r : PageRecord) : Bool :=
  !hasError r && r.extractedText ≠ ""

/-- The template string of one page: the page number, the file name in parentheses, a colon,
a newline and the text. -/
def pageSection (r : PageRecord) : String :=
  "Page " ++ toString r.pageNumber ++ " (" ++ r.fileName ++ "):\n" ++ r.extractedText

/-- The value `combinedText` that the effect of `FileUpload` stores in `allExtractedText`,
the `extractedText` property of `ChatInterface`. -/
def combinedText (pageResults : List PageRecord) : String :=
  jsJoin "\n\n---\n\n" ((pageResults.filter keptInText).map pageSection)

/-! ## `useOCRService.js`: the batch transport client -/

/-- An element of `response.data.pages`, as the service sends it. -/
structure ServicePage where
  page : Option Int
  text : Option String
  error : Option String
  preview : Option String
deriving DecidableEq

/-- The body of an answer with a success status, as far as `processFile` reads it: text that
is not a JSON object (its properties `success` and `error` are `undefined`), or an object
with the truthiness of `success`, the property `error` and the array `pages` (`none`: the
property is absent or cannot be mapped). -/
inductive ResponseBody where
  | unparsed (raw : String)
  | answer (success : Bool) (error : Option String) (pages : Option (List ServicePage))
deriving DecidableEq

/-- How `axios.post` settles: it resolves with a response of success status, or rejects
with an error that has a `response` (another status; `error` is `response.data?.error`),
with an error that has only a `request` (no answer arrived), or with an error that has
neither. -/
inductive HttpOutcome where
  | response (body : ResponseBody)
  | badStatus (status : Nat) (error : Option String)
  | noResponse
  | setupFailure (message : String)
deriving DecidableEq

/-- The object `processFile` builds for one page of the answer. -/
def servicePageData (p : ServicePage) : PageData :=
  { pageNumber := p.page
    text := some (orEmpty p.text)
    extractedText := some (orEmpty p.text)
    tokenCount :=
      some
        (match strOrNull p.text with
         | some t => splitLength t
         | none => 0)
    error := p.error
    confidence := none
    preview := strOrNull p.preview }

/-- The last branch of the `catch` block: `new Error(error.message || 'Unknown processing
error')`. -/
def rethrown (message : String) : String :=
  if message = "" then "Unknown processing error" else message

/-- The function `processFile`: the array it returns, or the message of the `Error` it
throws. `typeError` is the message of the `TypeError` that the JavaScript engine raises when
`response.data.pages.map` cannot be called. -/
def processFile (typeError : String) : HttpOutcome → Except String (List PageData)
  | .response (.answer true _ (some pages)) => .ok (pages.map servicePageData)
  | .response (.answer true _ none) => .error (rethrown typeError)
  | .response (.answer false error _) =>
      .error
        (rethrown
          (match strOrNull error with
           | some e => e
           | none => "Processing failed"))
  | .response (.unparsed _) => .error (rethrown "Processing failed")
  | .badStatus status error =>
      .error
        ("Server error: " ++ toString status ++ " - "
          ++ (match strOrNull error with
              | some e => e
              | none => "Unknown error"))
  | .noResponse => .error "Network error: Could not connect to OCR service"
  | .setupFailure message => .error (rethrown message)

/-- The value `onUploadProgress` passes on:
`Math.round((progressEvent.loaded * 100) / progressEvent.total)`. -/
def uploadProgressValue (loaded total : JSNum) : JSNum :=
  JSNum.round (JSNum.div (JSNum.mul loaded (.fin 100)) total)

/-- The network's behaviour for a file whose batch call runs `processFile` on the given
exchange: upload-progress events `(loaded, total)`, then the way the request settles. -/
def batchTransport (typeError : String) (wsEvents : List WsEvent)
    (progressEvents : List (JSNum × JSNum)) (outcome : HttpOutcome) : Transport :=
  { wsEvents := wsEvents
    uploadProgress := progressEvents.map (fun e => uploadProgressValue e.1 e.2)
    batch := processFile typeError outcome }

/-! ## `PageResult.js`: the word count shown with a page -/

/-- The method `String.prototype.trim`, on the characters of the text. -/
def jsTrim (cs : List Char) : List Char :=
  ((cs.dropWhile isJsSpace).reverse.dropWhile isJsSpace).reverse

/-- The pieces of `split(/\s+/)`; `piece` is the piece being read and `inRun` says that the
previous character was a `\s` character. The empty text has one piece, the empty one. -/
def splitPieces : List Char → Bool → List Char → List (List Char)
  | piece, _, [] => [piece]
  | piece, inRun, c :: cs =>
      if isJsSpace c then
        (if inRun then splitPieces piece true cs else piece :: splitPieces [] true cs)
      else splitPieces (piece ++ [c]) false cs

/-- The count in the text header of `PageResult`: `result.extractedText ?
result.extractedText.trim().split(/\s+/).filter(word => word.length > 0).length : 0`. -/
def shownWords (extractedText : String) : Nat :=
  if extractedText = "" then 0
  else
    ((splitPieces [] false (jsTrim extractedText.toList)).filter
      (fun word => decide (0 < word.length))).length

/-! ## Vocabulary of the statements -/

/-- The page results handed to the page-result callback, in invocation order. -/
def delivered : List Callback → List StreamPage
  | [] => []
  | .pageResult p :: cs => p :: delivered cs
  | .progress _ :: cs => delivered cs

/-- Whether handling the event settles the promise of `processFileStream`. -/
def settles (ev : WsEvent) : Bool :=
  (onEvent {} ev).settled.isSome

/-- The events the client handles: those up to and including the first one that settles the
promise. -/
def received : List WsEvent → List WsEvent
  | [] => []
  | ev :: rest => if settles ev then [ev] else ev :: received rest

/-- The record a `page_complete` event stands for in the page results of the file at
`fileIndex`; other events stand for none. -/
def pageCompleteRecord (fileIndex : Nat) (file : FileJob) : WsEvent → Option PageRecord
  | .pageComplete page text error confidence preview =>
      some
        { fileIndex := fileIndex
          fileName := file.name
          pageNumber := page
          extractedText := orEmpty text
          tokenCount := 0
          error := strOrNull error
          confidence := numOrNull confidence
          preview := strOrNull preview }
  | _ => none

/-- Whether the event is a `page_complete` message. -/
def isPageComplete : WsEvent → Bool
  | .pageComplete _ _ _ _ _ => true
  | _ => false

/-- The `total_pages` value of the latest `page_start` event of the list, `0` (the initial
value of the variable `totalPages`) if there is none. -/
def announcedTotal (events : List WsEvent) : Int :=
  events.foldl
    (fun acc ev =>
      match ev with
      | .pageStart _ total => total
      | _ => acc)
    0

/-- Whether the event, if it is a `page_start`, announces `total_pages = n`. -/
def announces (n : Int) : WsEvent → Bool
  | .pageStart _ total => total = n
  | _ => true

/-- The page number an event carries, for the two kinds of event that fire the progress
callback. -/
def progressPage : WsEvent → Option Int
  | .pageStart page _ => some page
  | .pageComplete page _ _ _ _ => some page
  | _ => none

/-- The session after each event handled, paired with the event: the callbacks of an event
run before the next event is handled. -/
def eventHistory (fileIndex : Nat) (file : FileJob) :
    Session → StreamState → List WsEvent → List (WsEvent × Session)
  | _, _, [] => []
  | s, st, ev :: rest =>
      let h := onEvent st ev
      let s1 := applyCallbacks fileIndex file s h.calls
      (ev, s1) :: (if h.settled.isSome then [] else eventHistory fileIndex file s1 h.state rest)

/-- The sessions right after each progress callback of a streaming call: one per
`page_start` or `page_complete` event handled. -/
def afterProgress (fileIndex : Nat) (file : FileJob) (s : Session) (events : List WsEvent) :
    List Session :=
  ((eventHistory fileIndex file s {} events).filter (fun e => (progressPage e.1).isSome)).map
    (fun e => e.2)

/-- The sessions right after the progress callback of each `page_complete` event handled. -/
def afterPageComplete (fileIndex : Nat) (file : FileJob) (s : Session)
    (events : List WsEvent) : List Session :=
  ((eventHistory fileIndex file s {} events).filter (fun e => isPageComplete e.1)).map
    (fun e => e.2)

/-- The percentage of the session's progress record, `NaN` standing for an absent key. -/
def Session.percentage (s : Session) : JSNum :=
  match s.processingProgress.percentage with
  | some v => v
  | none => .nan

/-- The percentage the session stores when `k` pages of `n` have completed: the payload
`(k / n) * 100` of the progress callback, passed through `updateProgress(percentage, 100)`. -/
def shownPercentage (k n : ℚ) : JSNum :=
  JSNum.round
    (JSNum.mul
      (JSNum.div (JSNum.mul (JSNum.div (.fin k) (.fin n)) (.fin 100)) (.fin 100))
      (.fin 100))

/-- The `total_pages` values reported by the progress callbacks, in invocation order. -/
def reportedTotals : List Callback → List Int
  | [] => []
  | .pageResult _ :: cs => reportedTotals cs
  | .progress p :: cs => p.totalPages :: reportedTotals cs

/-- The page results of a queue handled by the batch transport alone, file after file, when
the call for the file at index `i` returns `pages i`; the first file has index `start`. -/
def queueRecords (pages : Nat → List PageData) : Nat → List FileJob → List PageRecord
  | _, [] => []
  | start, f :: rest => batchRecords start f 0 (pages start) ++ queueRecords pages (start + 1) rest

/-- The combined text as the specification words it: one section per record without an
error, the separator between consecutive sections. -/
def combinedTextOfErrorFree (pageResults : List PageRecord) : String :=
  String.intercalate "\n\n---\n\n"
    ((pageResults.filter (fun r => !hasError r)).map pageSection)

/-- Whether the text `s` starts with the text `p`. -/
def startsWith (p s : String) : Bool :=
  p.toList.isPrefixOf s.toList

/-- Number of maximal runs of characters outside `\s` in a list of characters; `inWord` says
that the previous character was one. -/
def wordRuns : Bool → List Char → Nat
  | _, [] => 0
  | inWord, c :: cs =>
      if isJsSpace c then wordRuns false cs
      else (if inWord then 0 else 1) + wordRuns true cs

/-- The number of whitespace-delimited tokens of a text. -/
def wordCount (t : String) : Nat :=
  wordRuns false t.toList

/-- `1` when the first character is whitespace, else `0`. -/
def leadingSpace (cs : List Char) : Nat :=
  match cs.head? with
  | some c => if isJsSpace c then 1 else 0
  | none => 0

/-- `1` when the last character is whitespace, else `0`. -/
def trailingSpace (cs : List Char) : Nat :=
  match cs.getLast? with
  | some c => if isJsSpace c then 1 else 0
  | none => 0

/-! ## Scenarios of the specification -/

/-- A PDF file. -/
def pdfFile : FileJob := { name := "doc.pdf", type := "application/pdf" }

/-- An image file. -/
def imageFile : FileJob := { name := "scan.png", type := "image/png" }

/-- Scenario A: a two-page PDF streamed to the end. -/
def scenarioA : List WsEvent :=
  [ .pageStart 1 2, .pageComplete 1 (some "A") none none none,
    .pageStart 2 2, .pageComplete 2 (some "B") none none none,
    .processingComplete ]

/-- A batch page as `processFile` builds it from `{ page, text }`. -/
def batchPage (page : Int) (text : String) : PageData :=
  { pageNumber := some page, text := some text, extractedText := some text,
    tokenCount := some (if text = "" then 0 else splitLength text),
    error := none, confidence := none, preview := none }

/-- Scenario B: the connection drops after page 1 and the batch call returns both pages. -/
def scenarioB : Transport :=
  { wsEvents := [.pageStart 1 2, .pageComplete 1 (some "A") none none none, .socketError]
    uploadProgress := [.fin 100]
    batch := .ok [batchPage 1 "A", batchPage 2 "B"] }

/-- A network on which the batch call fails for the first file and succeeds for the others. -/
def failFirst (fileIndex : Nat) : Transport :=
  if fileIndex = 0 then
    { wsEvents := [], uploadProgress := [],
      batch := .error "Network error: Could not connect to OCR service" }
  else
    { wsEvents := [], uploadProgress := [], batch := .ok [batchPage 1 "B"] }

/-- A session with two images queued. -/
def twoImages : Session :=
  { files := [imageFile, { name := "next.png", type := "image/png" }] }

/-- Two pages that complete in reverse order. -/
def reversedPages : List WsEvent :=
  [ .pageStart 2 2, .pageComplete 2 (some "B") none none none,
    .pageStart 1 2, .pageComplete 1 (some "A") none none none ]

/-- A network on which every batch call returns two pages after one upload-progress
event. -/
def twoPagesEach (_fileIndex : Nat) : Transport :=
  { wsEvents := [], uploadProgress := [.fin 100],
    batch := .ok [batchPage 1 "A", batchPage 2 "B"] }

/-- A network on which the batch call succeeds for the first file and fails for the others. -/
def failSecond (fileIndex : Nat) : Transport :=
  if fileIndex = 0 then
    { wsEvents := [], uploadProgress := [], batch := .ok [batchPage 1 "A"] }
  else
    { wsEvents := [], uploadProgress := [],
      batch := .error "Network error: Could not connect to OCR service" }

/-- A network that sends nothing for any file: no upload progress and an empty page list. -/
def silent (_fileIndex : Nat) : Transport :=
  { wsEvents := [], uploadProgress := [], batch := .ok [] }

/-- A streamed page without an error whose text is empty. -/
def blankPage : PageRecord :=
  streamRecord 0 pdfFile
    { pageNumber := 1, extractedText := some "", error := none, confidence := none,
      preview := none }

/-- A session with one image queued. -/
def oneImage : Session :=
  { files := [imageFile] }

/-- A network on which the first file yields two pages and the others send nothing. -/
def thenSilent (fileIndex : Nat) : Transport :=
  if fileIndex = 0 then twoPagesEach 0 else silent fileIndex

/-- The message of the `TypeError` for a missing `pages` array, in the wording of V8. -/
def v8TypeError : String := "Cannot read properties of undefined (reading 'map')"

/-- A network on which the first file yields two pages and the others upload to the end and
get an empty page list. -/
def thenNoPages (fileIndex : Nat) : Transport :=
  if fileIndex = 0 then twoPagesEach 0
  else
    batchTransport v8TypeError [] [(.fin 512, .fin 1024), (.fin 1024, .fin 1024)]
      (.response (.answer true none (some [])))

/-- A network on which the batch call for the file at index `i` returns two pages whose
texts name the file and the page. -/
def distinctPages (fileIndex : Nat) : Transport :=
  { wsEvents := [], uploadProgress := [],
    batch :=
      .ok [ batchPage 1 (toString fileIndex ++ "a"), batchPage 2 (toString fileIndex ++ "b") ] }

/-- A session with three images queued. -/
def threeImages : Session :=
  { files :=
      [ imageFile, { name := "next.png", type := "image/png" },
        { name := "last.png", type := "image/png" } ] }

/-- A session whose queue is empty while page results are still held. -/
def staleResults : Session :=
  { files := [], pageResults := [blankPage] }

/-! ## Theorems -/

/-! ### Rounding to binary64 -/

namespace JSNum

theorem log2Fuel_eq (fuel : ℕ) : ∀ n : ℕ, n ≤ fuel → log2Fuel fuel n = Nat.log 2 n := by
  induction fuel with
  | zero =>
      intro n hn
      have : n = 0 := by omega
      subst this
      simp [log2Fuel]
  | succ fuel ih =>
      intro n hn
      by_cases h2 : 2 ≤ n
      · have hrec : Nat.log 2 n = Nat.log 2 (n / 2) + 1 :=
          Nat.log_of_one_lt_of_le (by norm_num) h2
        have hle : n / 2 ≤ fuel := by omega
        rw [log2Fuel, if_pos h2, ih (n / 2) hle, hrec]
      · have hlt : n < 2 := by omega
        rw [log2Fuel, if_neg h2, Nat.log_of_lt hlt]

theorem clog2Fuel_eq (fuel : ℕ) : ∀ n : ℕ, n ≤ fuel → clog2Fuel fuel n = Nat.clog 2 n := by
  induction fuel with
  | zero =>
      intro n hn
      have : n = 0 := by omega
      subst this
      simp [clog2Fuel]
  | succ fuel ih =>
      intro n hn
      by_cases h2 : 2 ≤ n
      · have hrec : Nat.clog 2 n = Nat.clog 2 ((n + 1) / 2) + 1 := by
          have h := Nat.clog_of_two_le (b := 2) (by norm_num) h2
          have harith : n + 2 - 1 = n + 1 := by omega
          rw [harith] at h
          exact h
        have hle : (n + 1) / 2 ≤ fuel := by omega
        rw [clog2Fuel, if_pos h2, ih ((n + 1) / 2) hle, hrec]
      · have hlt : n ≤ 1 := by omega
        rw [clog2Fuel, if_neg h2, Nat.clog_of_right_le_one hlt]

theorem binade_eq (a : ℚ) : binade a = Int.log 2 a := by
  unfold binade Int.log
  rw [log2Fuel_eq _ _ (le_refl _), clog2Fuel_eq _ _ (le_refl _)]

theorem roundEven_intCast (n : ℤ) : roundEven (n : ℚ) = n := by
  simp [roundEven]

theorem floor_le_roundEven (x : ℚ) : ⌊x⌋ ≤ roundEven x := by
  unfold roundEven
  split_ifs <;> omega

theorem roundEven_le_floor_add_one (x : ℚ) : roundEven x ≤ ⌊x⌋ + 1 := by
  unfold roundEven
  split_ifs <;> omega

theorem roundEven_mono {x y : ℚ} (h : x ≤ y) : roundEven x ≤ roundEven y := by
  have hf : ⌊x⌋ ≤ ⌊y⌋ := Int.floor_le_floor h
  rcases lt_or_eq_of_le hf with hlt | heq
  · calc roundEven x ≤ ⌊x⌋ + 1 := roundEven_le_floor_add_one x
      _ ≤ ⌊y⌋ := hlt
      _ ≤ roundEven y := floor_le_roundEven y
  · have hr : x - ⌊x⌋ ≤ y - ⌊y⌋ := by
      rw [heq]
      linarith
    unfold roundEven
    rw [heq]
    rw [heq] at hr
    split_ifs <;> first | omega | (exfalso; linarith)

theorem roundEven_le_of_le_intCast {x : ℚ} {n : ℤ} (h : x ≤ n) : roundEven x ≤ n := by
  have := roundEven_mono h
  rwa [roundEven_intCast] at this

theorem le_roundEven_of_intCast_le {x : ℚ} {n : ℤ} (h : (n : ℚ) ≤ x) : n ≤ roundEven x := by
  have := roundEven_mono h
  rwa [roundEven_intCast] at this

theorem ulpExp_mono {a b : ℚ} (ha : 0 < a) (h : a ≤ b) : ulpExp a ≤ ulpExp b := by
  unfold ulpExp
  rw [binade_eq, binade_eq]
  have := Int.log_mono_right (b := 2) ha h
  omega

theorem two_zpow_pos (k : ℤ) : (0 : ℚ) < 2 ^ k := zpow_pos (by norm_num) k

theorem nearest_mono {a b : ℚ} (ha : 0 < a) (h : a ≤ b) : nearest a ≤ nearest b := by
  have hb : 0 < b := lt_of_lt_of_le ha h
  have hu := ulpExp_mono ha h
  rcases lt_or_eq_of_le hu with hlt | heq
  · -- different binades: the power of two `2 ^ log b` lies between the two results
    have hea : Int.log 2 a + 1 ≤ Int.log 2 b ∧ (-1022 : ℤ) ≤ Int.log 2 b
        ∧ ulpExp b = Int.log 2 b - 52 ∧ ulpExp a + 53 ≤ Int.log 2 b := by
      unfold ulpExp at hlt ⊢
      simp only [binade_eq] at hlt ⊢
      omega
    obtain ⟨h1, _, h3, h4⟩ := hea
    have hB : nearest a ≤ 2 ^ Int.log 2 b := by
      have ha2 : a ≤ 2 ^ Int.log 2 b := by
        have hlt2 : a < 2 ^ (Int.log 2 a + 1) := Int.lt_zpow_succ_log_self (by norm_num) a
        have hle : (2 : ℚ) ^ (Int.log 2 a + 1) ≤ 2 ^ Int.log 2 b :=
          zpow_le_zpow_right₀ (by norm_num) h1
        linarith
      obtain ⟨k, hk⟩ : ∃ k : ℕ, Int.log 2 b - ulpExp a = k :=
        ⟨(Int.log 2 b - ulpExp a).toNat, by omega⟩
      have hsplit : (2 : ℚ) ^ Int.log 2 b = ((2 ^ k : ℤ) : ℚ) * 2 ^ ulpExp a := by
        have : Int.log 2 b = (k : ℤ) + ulpExp a := by omega
        rw [this, zpow_add₀ (by norm_num : (2 : ℚ) ≠ 0)]
        simp
      have hdiv : a / 2 ^ ulpExp a ≤ ((2 ^ k : ℤ) : ℚ) := by
        rw [div_le_iff₀ (two_zpow_pos _), ← hsplit]
        exact ha2
      have hr := roundEven_le_of_le_intCast hdiv
      unfold nearest
      rw [hsplit]
      exact mul_le_mul_of_nonneg_right (by exact_mod_cast hr) (le_of_lt (two_zpow_pos _))
    have hB2 : (2 : ℚ) ^ Int.log 2 b ≤ nearest b := by
      have hb2 : (2 : ℚ) ^ Int.log 2 b ≤ b := Int.zpow_log_le_self (by norm_num) hb
      have hsplit : (2 : ℚ) ^ Int.log 2 b = ((2 ^ 52 : ℤ) : ℚ) * 2 ^ ulpExp b := by
        have : Int.log 2 b = ((52 : ℕ) : ℤ) + ulpExp b := by omega
        rw [this, zpow_add₀ (by norm_num : (2 : ℚ) ≠ 0), zpow_natCast]
        push_cast
        rfl
      have hdiv : ((2 ^ 52 : ℤ) : ℚ) ≤ b / 2 ^ ulpExp b := by
        rw [le_div_iff₀ (two_zpow_pos _), ← hsplit]
        exact hb2
      have hr := le_roundEven_of_intCast_le hdiv
      unfold nearest
      rw [hsplit]
      exact mul_le_mul_of_nonneg_right (by exact_mod_cast hr) (le_of_lt (two_zpow_pos _))
    exact le_trans hB hB2
  · unfold nearest
    rw [heq]
    have hdiv : a / 2 ^ ulpExp b ≤ b / 2 ^ ulpExp b :=
      div_le_div_of_nonneg_right h (le_of_lt (two_zpow_pos _))
    have hr := roundEven_mono hdiv
    exact mul_le_mul_of_nonneg_right (by exact_mod_cast hr) (le_of_lt (two_zpow_pos _))

theorem nearest_nonneg {a : ℚ} (ha : 0 < a) : 0 ≤ nearest a := by
  unfold nearest
  have h0 : (0 : ℚ) ≤ a / 2 ^ ulpExp a := le_of_lt (div_pos ha (two_zpow_pos _))
  have hr : (0 : ℤ) ≤ roundEven (a / 2 ^ ulpExp a) :=
    le_roundEven_of_intCast_le (by simpa using h0)
  exact mul_nonneg (by exact_mod_cast hr) (le_of_lt (two_zpow_pos _))

theorem ofRat_zero : ofRat 0 = fin 0 := by
  simp [ofRat]

theorem ofRat_one : ofRat 1 = fin 1 := by decide!

theorem ofRat_hundred : ofRat 100 = fin 100 := by decide!

/-- A positive exact result is rounded to a finite number that is not negative, or to
`+Infinity`. -/
theorem ofRat_of_pos {a : ℚ} (ha : 0 < a) :
    (ofRat a = fin (nearest a) ∧ nearest a < 2 ^ 1024) ∨
    (ofRat a = posInf ∧ ¬ nearest a < 2 ^ 1024) := by
  have hne : a ≠ 0 := ne_of_gt ha
  by_cases h : nearest a < 2 ^ 1024
  · exact Or.inl ⟨by simp [ofRat, hne, ha, h], h⟩
  · exact Or.inr ⟨by simp [ofRat, hne, ha, h], h⟩

theorem ofRat_nonneg {a : ℚ} (ha : 0 ≤ a) : le (fin 0) (ofRat a) = true := by
  rcases eq_or_lt_of_le ha with h0 | hpos
  · rw [← h0, ofRat_zero]
    simp [le]
  · rcases ofRat_of_pos hpos with ⟨h, _⟩ | ⟨h, _⟩
    · rw [h]
      simpa [le] using nearest_nonneg hpos
    · rw [h]
      rfl

/-- Rounding to binary64 keeps the order of exact results that are not negative. -/
theorem ofRat_mono {a b : ℚ} (ha : 0 ≤ a) (h : a ≤ b) : le (ofRat a) (ofRat b) = true := by
  rcases eq_or_lt_of_le ha with h0 | hpos
  · rw [← h0, ofRat_zero]
    exact ofRat_nonneg (le_trans ha h)
  · have hb : 0 < b := lt_of_lt_of_le hpos h
    have hmono := nearest_mono hpos h
    rcases ofRat_of_pos hb with ⟨hB, hBlt⟩ | ⟨hB, _⟩
    · rcases ofRat_of_pos hpos with ⟨hA, _⟩ | ⟨_, hAge⟩
      · rw [hA, hB]
        simpa [le] using hmono
      · exact absurd (lt_of_le_of_lt hmono hBlt) hAge
    · rcases ofRat_of_pos hpos with ⟨hA, _⟩ | ⟨hA, _⟩
      · rw [hA, hB]
        rfl
      · rw [hA, hB]
        rfl

/-- A number that is not negative is a finite one that is not negative, or `+Infinity`. -/
theorem nonneg_cases {x : JSNum} (hx : le (fin 0) x = true) :
    (∃ q : ℚ, x = fin q ∧ 0 ≤ q) ∨ x = posInf := by
  cases x with
  | fin q => exact Or.inl ⟨q, rfl, by simpa [le] using hx⟩
  | nan => simp [le] at hx
  | posInf => exact Or.inr rfl
  | negInf => simp [le] at hx

/-- Multiplying by a positive constant keeps the order of numbers that are not negative. -/
theorem mul_mono {x y : JSNum} {c : ℚ} (hc : 0 < c) (hx : le (fin 0) x = true)
    (hxy : le x y = true) :
    le (fin 0) (mul x (fin c)) = true ∧ le (mul x (fin c)) (mul y (fin c)) = true := by
  have hc0 : c ≠ 0 := ne_of_gt hc
  rcases nonneg_cases hx with ⟨a, rfl, ha⟩ | rfl
  · cases y with
    | fin b =>
        have hab : a ≤ b := by simpa [le] using hxy
        exact ⟨ofRat_nonneg (mul_nonneg ha (le_of_lt hc)),
          ofRat_mono (mul_nonneg ha (le_of_lt hc)) (mul_le_mul_of_nonneg_right hab (le_of_lt hc))⟩
    | nan => simp [le] at hxy
    | posInf =>
        refine ⟨ofRat_nonneg (mul_nonneg ha (le_of_lt hc)), ?_⟩
        have hn := ofRat_nonneg (mul_nonneg ha (le_of_lt hc))
        rcases nonneg_cases hn with ⟨q, hq, _⟩ | hq
        · simp [mul, hc0, hc, hq, le]
        · simp [mul, hc0, hc, hq, le]
    | negInf => simp [le] at hxy
  · cases y with
    | fin b => simp [le] at hxy
    | nan => simp [le] at hxy
    | posInf => simp [mul, hc0, hc, le]
    | negInf => simp [le] at hxy

/-- Dividing by a positive constant keeps the order of numbers that are not negative. -/
theorem div_mono {x y : JSNum} {c : ℚ} (hc : 0 < c) (hx : le (fin 0) x = true)
    (hxy : le x y = true) :
    le (fin 0) (div x (fin c)) = true ∧ le (div x (fin c)) (div y (fin c)) = true := by
  have hc0 : c ≠ 0 := ne_of_gt hc
  have hcle : 0 ≤ c := le_of_lt hc
  rcases nonneg_cases hx with ⟨a, rfl, ha⟩ | rfl
  · have hdiv : div (fin a) (fin c) = ofRat (a / c) := by simp [div, hc0]
    cases y with
    | fin b =>
        have hab : a ≤ b := by simpa [le] using hxy
        have hdivb : div (fin b) (fin c) = ofRat (b / c) := by simp [div, hc0]
        rw [hdiv, hdivb]
        exact ⟨ofRat_nonneg (div_nonneg ha hcle),
          ofRat_mono (div_nonneg ha hcle) (div_le_div_of_nonneg_right hab hcle)⟩
    | nan => simp [le] at hxy
    | posInf =>
        rw [hdiv]
        refine ⟨ofRat_nonneg (div_nonneg ha hcle), ?_⟩
        have hn := ofRat_nonneg (div_nonneg ha hcle)
        rcases nonneg_cases hn with ⟨q, hq, _⟩ | hq
        · simp [div, hcle, hq, le]
        · simp [div, hcle, hq, le]
    | negInf => simp [le] at hxy
  · cases y with
    | fin b => simp [le] at hxy
    | nan => simp [le] at hxy
    | posInf => simp [div, hcle, le]
    | negInf => simp [le] at hxy

/-- `Math.round` keeps the order of numbers that are not negative. -/
theorem round_mono {x y : JSNum} (hx : le (fin 0) x = true) (hxy : le x y = true) :
    le (fin 0) (round x) = true ∧ le (round x) (round y) = true := by
  rcases nonneg_cases hx with ⟨a, rfl, ha⟩ | rfl
  · have h0 : (0 : ℤ) ≤ ⌊a + 1 / 2⌋ := Int.floor_nonneg.mpr (by linarith)
    cases y with
    | fin b =>
        have hab : a ≤ b := by simpa [le] using hxy
        have hfl : ⌊a + 1 / 2⌋ ≤ ⌊b + 1 / 2⌋ := Int.floor_le_floor (by linarith)
        refine ⟨?_, ?_⟩
        · simp only [round, le, decide_eq_true_eq]
          exact_mod_cast h0
        · simp only [round, le, decide_eq_true_eq]
          exact_mod_cast hfl
    | nan => simp [le] at hxy
    | posInf =>
        refine ⟨?_, by simp [round, le]⟩
        simp only [round, le, decide_eq_true_eq]
        exact_mod_cast h0
    | negInf => simp [le] at hxy
  · cases y with
    | fin b => simp [le] at hxy
    | nan => simp [le] at hxy
    | posInf => simp [round, le]
    | negInf => simp [le] at hxy

theorem abs_roundEven_sub_le (x : ℚ) : |(roundEven x : ℚ) - x| ≤ 1 / 2 := by
  have h1 : (⌊x⌋ : ℚ) ≤ x := Int.floor_le x
  have h2 : x < ⌊x⌋ + 1 := Int.lt_floor_add_one x
  unfold roundEven
  rw [abs_le]
  split_ifs with ha hb hc
  · constructor <;> linarith
  · push_cast
    constructor <;> linarith
  · constructor <;> linarith
  · push_cast
    constructor <;> linarith

/-- The rounded value is within half a unit in the last place of the exact one. -/
theorem abs_nearest_sub_le (a : ℚ) : |nearest a - a| ≤ 2 ^ ulpExp a / 2 := by
  have hu := two_zpow_pos (ulpExp a)
  have h := abs_roundEven_sub_le (a / 2 ^ ulpExp a)
  have heq : nearest a - a
      = ((roundEven (a / 2 ^ ulpExp a) : ℚ) - a / 2 ^ ulpExp a) * 2 ^ ulpExp a := by
    unfold nearest
    field_simp
  rw [heq, abs_mul, abs_of_pos hu]
  calc |(roundEven (a / 2 ^ ulpExp a) : ℚ) - a / 2 ^ ulpExp a| * 2 ^ ulpExp a
      ≤ 1 / 2 * 2 ^ ulpExp a := mul_le_mul_of_nonneg_right h (le_of_lt hu)
    _ = 2 ^ ulpExp a / 2 := by ring

theorem ulpExp_one : ulpExp 1 = -52 := by decide!

theorem ulpExp_hundred : ulpExp 100 = -46 := by decide!

/-- The error of one rounded operation whose exact result lies between `0` and `m`. -/
theorem ofRat_error {a m x : ℚ} (ha : 0 ≤ a) (ham : a ≤ m) (hx : ofRat a = fin x) :
    |x - a| ≤ 2 ^ ulpExp m / 2 := by
  rcases eq_or_lt_of_le ha with h0 | hpos
  · rw [← h0, ofRat_zero] at hx
    injection hx with hx
    rw [← hx, ← h0, sub_self, abs_zero]
    exact le_of_lt (div_pos (two_zpow_pos (ulpExp m)) (by norm_num))
  · rcases ofRat_of_pos hpos with ⟨h, _⟩ | ⟨h, _⟩
    · rw [h] at hx
      injection hx with hx
      rw [← hx]
      refine le_trans (abs_nearest_sub_le a) ?_
      have hmono := ulpExp_mono hpos ham
      have : (2 : ℚ) ^ ulpExp a ≤ 2 ^ ulpExp m :=
        zpow_le_zpow_right₀ (by norm_num) hmono
      linarith
    · rw [h] at hx
      cases hx

/-- The quotient `23 / 40` in binary64 lies below `23 / 40`. -/
theorem div_23_40 :
    div (fin 23) (fin 40) = fin (2589569785738035 / 4503599627370496) := by decide!

/-- In binary64 `(23 / 40) * 100` is `57.49999999999999`, below `57.5`. -/
theorem mul_div_23_40 :
    mul (div (fin 23) (fin 40)) (fin 100) = fin (8092405580431359 / 140737488355328) := by
  decide!

theorem div_self_fin {a : ℚ} (ha : a ≠ 0) : div (fin a) (fin a) = fin 1 := by
  simp [div, ha, ofRat_one]

theorem div_fin_fin {a b : ℚ} (hb : b ≠ 0) : div (fin a) (fin b) = ofRat (a / b) := by
  simp [div, hb]

theorem mul_fin_fin (a b : ℚ) : mul (fin a) (fin b) = ofRat (a * b) := rfl

theorem mul_one_hundred : mul (fin 1) (fin 100) = fin 100 := by
  simp [mul, ofRat_hundred]

theorem round_hundred : round (fin 100) = fin 100 := by
  simp [round]
  norm_num

theorem round_zero : round (fin 0) = fin 0 := by
  simp [round]
  norm_num

theorem zero_div_hundred : div (fin 0) (fin 100) = fin 0 := by
  simp [div, ofRat_zero]

theorem zero_mul_hundred : mul (fin 0) (fin 100) = fin 0 := by
  simp [mul, ofRat_zero]

/-- A number between `0` and a finite bound is finite. -/
theorem fin_of_le_fin {x : JSNum} {m : ℚ} (hx : le (fin 0) x = true)
    (hxm : le x (fin m) = true) : ∃ q : ℚ, x = fin q ∧ 0 ≤ q ∧ q ≤ m := by
  rcases nonneg_cases hx with ⟨q, rfl, hq⟩ | rfl
  · exact ⟨q, rfl, hq, by simpa [le] using hxm⟩
  · simp [le] at hxm

end JSNum

/-! ### `updateProgress` -/

theorem updateProgress_current (prev : Progress) (c t : JSNum) :
    (updateProgress prev c t).current = some c := rfl

theorem updateProgress_total (prev : Progress) (c t : JSNum) :
    (updateProgress prev c t).total = some t := rfl

theorem updateProgress_percentage (prev : Progress) (c t : JSNum) :
    (updateProgress prev c t).percentage
      = some (JSNum.round (JSNum.mul (JSNum.div c t) (JSNum.fin 100))) := rfl

/-- C6, as stated, fails at `updateProgress(0, 0)`: the percentage is `NaN`, not `0`. -/
theorem c6_counterexample :
    (updateProgress {} (.fin 0) (.fin 0)).percentage = some .nan ∧
    (updateProgress {} (.fin 0) (.fin 0)).percentage ≠ some (.fin 0) := by
  constructor <;> decide

/-- C6 (amended): for every completed count, `updateProgress(completed, 0)` does not throw
and stores `current = completed`, `total = 0` and a percentage that is not a finite number:
`NaN` when `completed` is `0`, `Infinity` when it is positive and `-Infinity` when it is
negative; whatever `completed` is (also `NaN` or infinite), the percentage is never finite, so
never `0`. -/
theorem c6_zero_total_percentage_not_finite (prev : Progress) :
    (∀ c : ℚ,
      (updateProgress prev (.fin c) (.fin 0)).current = some (.fin c) ∧
      (updateProgress prev (.fin c) (.fin 0)).total = some (.fin 0) ∧
      (updateProgress prev (.fin c) (.fin 0)).percentage
        = some (if c = 0 then JSNum.nan else if 0 < c then JSNum.posInf else JSNum.negInf)) ∧
    (∀ c : JSNum, ∃ v,
      (updateProgress prev c (.fin 0)).percentage = some v ∧ v.isFinite = false) := by
  constructor
  · intro c
    refine ⟨rfl, rfl, ?_⟩
    by_cases h0 : c = 0
    · simp [updateProgress, JSNum.div, JSNum.mul, JSNum.round, h0]
    · by_cases hp : 0 < c
      · simp [updateProgress, JSNum.div, JSNum.mul, JSNum.round, h0, hp]
      · simp [updateProgress, JSNum.div, JSNum.mul, JSNum.round, h0, hp]
  · intro c
    refine ⟨_, rfl, ?_⟩
    cases c with
    | fin q =>
        by_cases h0 : q = 0
        · simp [JSNum.div, JSNum.mul, JSNum.round, JSNum.isFinite, h0]
        · by_cases hp : 0 < q
          · simp [JSNum.div, JSNum.mul, JSNum.round, JSNum.isFinite, h0, hp]
          · simp [JSNum.div, JSNum.mul, JSNum.round, JSNum.isFinite, h0, hp]
    | nan => simp [JSNum.div, JSNum.mul, JSNum.round, JSNum.isFinite]
    | posInf => simp [JSNum.div, JSNum.mul, JSNum.round, JSNum.isFinite]
    | negInf => simp [JSNum.div, JSNum.mul, JSNum.round, JSNum.isFinite]

/-- C7, as stated, fails at `updateProgress(23, 40)`: the quotient `23 / 40` is rounded to
the nearest binary64 number, which lies below it, the product with `100` is rounded to
`57.49999999999999`, and the stored percentage is `57`, while
`round(23 / 40 * 100) = round(57.5) = 58`. -/
theorem c7_counterexample :
    (updateProgress {} (.fin 23) (.fin 40)).percentage = some (.fin 57) ∧
    round ((23 : ℚ) / 40 * 100) = 58 ∧
    (updateProgress {} (.fin 23) (.fin 40)).percentage
      ≠ some (.fin ((round ((23 : ℚ) / 40 * 100) : ℤ) : ℚ)) := by
  have h1 : (updateProgress {} (.fin 23) (.fin 40)).percentage = some (.fin 57) := by decide!
  have h2 : round ((23 : ℚ) / 40 * 100) = 58 := by
    rw [round_eq]
    decide!
  refine ⟨h1, h2, ?_⟩
  rw [h1, h2]
  decide!

/-- C7 (amended): for `total > 0` and `0 ≤ completed ≤ total`,
`updateProgress(completed, total)` stores `current = completed`, `total = total` and
`percentage = Math.round(y)`, where `x` is the quotient `completed / total` rounded to the
nearest binary64 number and `y` is the product `x * 100` rounded likewise. The percentage is
an integer between `0` and `100`, it is `100` when `completed = total`, and it differs from
`round(completed / total * 100)` by at most one; the record does not depend on the previous
one. -/
theorem c7_updateProgress_overwrites (prev : Progress) (c t : ℚ)
    (ht : 0 < t) (hc0 : 0 ≤ c) (hct : c ≤ t) :
    (updateProgress prev (.fin c) (.fin t)).current = some (.fin c) ∧
    (updateProgress prev (.fin c) (.fin t)).total = some (.fin t) ∧
    (∃ x y : ℚ,
      JSNum.ofRat (c / t) = .fin x ∧ JSNum.ofRat (x * 100) = .fin y ∧
      (updateProgress prev (.fin c) (.fin t)).percentage
        = some (.fin ((round y : ℤ) : ℚ)) ∧
      0 ≤ round y ∧ round y ≤ 100 ∧
      (c = t → round y = 100) ∧
      |round y - round (c / t * 100)| ≤ 1) ∧
    (∀ prev2 : Progress,
      updateProgress prev2 (.fin c) (.fin t) = updateProgress prev (.fin c) (.fin t)) := by
  have hq0 : 0 ≤ c / t := div_nonneg hc0 (le_of_lt ht)
  have hq1 : c / t ≤ 1 := (div_le_one ht).mpr hct
  obtain ⟨x, hx, hx0, hx1⟩ :=
    JSNum.fin_of_le_fin (JSNum.ofRat_nonneg hq0)
      (by rw [← JSNum.ofRat_one]; exact JSNum.ofRat_mono hq0 hq1)
  have hp0 : 0 ≤ x * 100 := by positivity
  have hp1 : x * 100 ≤ 100 := by linarith
  obtain ⟨y, hy, hy0, hy1⟩ :=
    JSNum.fin_of_le_fin (JSNum.ofRat_nonneg hp0)
      (by rw [← JSNum.ofRat_hundred]; exact JSNum.ofRat_mono hp0 hp1)
  have hex := JSNum.ofRat_error hq0 hq1 hx
  have hey := JSNum.ofRat_error hp0 hp1 hy
  rw [JSNum.ulpExp_one] at hex
  rw [JSNum.ulpExp_hundred] at hey
  have hclose : |y - c / t * 100| ≤ 1 / 2 := by
    have e1 := abs_le.mp hex
    have e2 := abs_le.mp hey
    have k1 : (2 : ℚ) ^ (-52 : ℤ) / 2 ≤ 1 / 1000 := by norm_num
    have k2 : (2 : ℚ) ^ (-46 : ℤ) / 2 ≤ 1 / 1000 := by norm_num
    rw [abs_le]
    constructor <;> linarith [e1.1, e1.2, e2.1, e2.2]
  refine ⟨rfl, rfl, ⟨x, y, hx, hy, ?_, ?_, ?_, ?_, ?_⟩, fun _ => rfl⟩
  · rw [updateProgress_percentage, JSNum.div_fin_fin (ne_of_gt ht), hx, JSNum.mul_fin_fin, hy,
      round_eq]
    rfl
  · rw [round_eq]
    exact Int.floor_nonneg.mpr (by linarith)
  · rw [round_eq]
    apply Int.floor_le_iff.mpr
    push_cast
    linarith
  · intro h
    subst h
    rw [div_self (ne_of_gt ht), JSNum.ofRat_one] at hx
    injection hx with hx
    rw [← hx, one_mul, JSNum.ofRat_hundred] at hy
    injection hy with hy
    rw [← hy]
    norm_num
  · have c1 := abs_le.mp hclose
    rw [round_eq, round_eq, abs_le]
    constructor
    · have : ⌊c / t * 100 + 1 / 2⌋ ≤ ⌊y + 1 / 2⌋ + 1 := by
        rw [← Int.floor_add_one]
        exact Int.floor_le_floor (by linarith [c1.1])
      omega
    · have : ⌊y + 1 / 2⌋ ≤ ⌊c / t * 100 + 1 / 2⌋ + 1 := by
        rw [← Int.floor_add_one]
        exact Int.floor_le_floor (by linarith [c1.2])
      omega

/-- C7 (amended) at `updateProgress(3, 3)`: the percentage is `100`. -/
theorem c7_updateProgress_overwrites_witness :
    (0 : ℚ) < 3 ∧ (0 : ℚ) ≤ 3 ∧ (3 : ℚ) ≤ 3 ∧
    (updateProgress {} (.fin 3) (.fin 3)).percentage = some (.fin 100) := by
  obtain ⟨_, _, ⟨x, y, _, _, hp, _, _, h100, _⟩, _⟩ :=
    c7_updateProgress_overwrites {} 3 3 (by norm_num) (by norm_num) (le_refl _)
  refine ⟨by norm_num, by norm_num, le_refl _, ?_⟩
  rw [hp, h100 rfl]
  norm_num

/-! ### Callbacks and page results -/

theorem applyCallbacks_nil (i : Nat) (f : FileJob) (s : Session) :
    applyCallbacks i f s [] = s := rfl

theorem applyCallbacks_cons (i : Nat) (f : FileJob) (s : Session) (c : Callback)
    (cs : List Callback) :
    applyCallbacks i f s (c :: cs) = applyCallbacks i f (applyCallback i f s c) cs := rfl

theorem applyCallbacks_append (i : Nat) (f : FileJob) (s : Session) (cs ds : List Callback) :
    applyCallbacks i f s (cs ++ ds) = applyCallbacks i f (applyCallbacks i f s cs) ds := by
  simp [applyCallbacks, List.foldl_append]

/-- The callbacks append one record per delivered page result and touch no other record. -/
theorem applyCallbacks_pageResults (i : Nat) (f : FileJob) (cs : List Callback) :
    ∀ s : Session, (applyCallbacks i f s cs).pageResults
      = s.pageResults ++ (delivered cs).map (streamRecord i f) := by
  induction cs with
  | nil => intro s; simp [applyCallbacks, delivered]
  | cons c cs ih =>
      intro s
      rw [applyCallbacks_cons, ih]
      cases c with
      | pageResult p => simp [applyCallback, onPageResult, delivered]
      | progress p => simp [applyCallback, onProgress, delivered]

theorem applyCallbacks_useRealTimeProcessing (i : Nat) (f : FileJob) (cs : List Callback) :
    ∀ s : Session, (applyCallbacks i f s cs).useRealTimeProcessing = s.useRealTimeProcessing := by
  induction cs with
  | nil => intro s; rfl
  | cons c cs ih =>
      intro s
      rw [applyCallbacks_cons, ih]
      cases c <;> rfl

/-- The upload-progress callback of the batch call leaves the page results alone. -/
theorem uploadProgress_pageResults (ps : List JSNum) :
    ∀ s : Session,
      (ps.foldl
        (fun s progress =>
          { s with processingProgress := updateProgress s.processingProgress progress (.fin 100) })
        s).pageResults = s.pageResults := by
  induction ps with
  | nil => intro s; rfl
  | cons p ps ih => intro s; rw [List.foldl_cons, ih]

theorem batchRecords_length (i : Nat) (f : FileJob) (ds : List PageData) :
    ∀ start : Nat, (batchRecords i f start ds).length = ds.length := by
  induction ds with
  | nil => intro start; rfl
  | cons d ds ih => intro start; simp [batchRecords, ih]

/-- A successful batch call appends exactly the records of the returned pages. -/
theorem processWithStandardAPI_ok (t : Transport) (f : FileJob) (i : Nat) (c : Ctx)
    (pages : List PageData) (hb : t.batch = .ok pages) :
    ∃ c2, processWithStandardAPI t f i c = .done c2 ∧
      c2.state.pageResults = c.state.pageResults ++ batchRecords i f 0 pages ∧
      c2.trace = c.trace ++ [.batchCall i] := by
  unfold processWithStandardAPI
  simp only [hb]
  by_cases hlen : 0 < pages.length
  · simp only [hlen, if_true]
    exact ⟨_, rfl, by simp [uploadProgress_pageResults], rfl⟩
  · simp only [hlen, if_false]
    have hnil : pages = [] := List.length_eq_zero.mp (Nat.eq_zero_of_not_pos hlen)
    subst hnil
    exact ⟨_, rfl, by simp [uploadProgress_pageResults, batchRecords], rfl⟩

/-! ### The loop body (C1, C4) -/

theorem processEntry_stream (t : Transport) (file : FileJob) (fileIndex : Nat) (c : Ctx)
    (hpdf : file.type = "application/pdf") (hrt : c.state.useRealTimeProcessing = true) :
    processEntry t file fileIndex c
      = streamBranch t file fileIndex { c with state := markCurrent c.state file fileIndex } := by
  simp [processEntry, hpdf, hrt]

theorem processEntry_batch (t : Transport) (file : FileJob) (fileIndex : Nat) (c : Ctx)
    (h : ¬ (file.type = "application/pdf" ∧ c.state.useRealTimeProcessing = true)) :
    processEntry t file fileIndex c
      = processWithStandardAPI t file fileIndex
          { c with state := markCurrent c.state file fileIndex } := by
  unfold processEntry
  by_cases hpdf : file.type = "application/pdf"
  · have hrt : c.state.useRealTimeProcessing = false := by
      cases hb : c.state.useRealTimeProcessing
      · rfl
      · exact absurd ⟨hpdf, hb⟩ h
    simp [hrt]
  · simp [hpdf]

/-- C1: a PDF processed with real-time processing on, whose stream delivers `k` page results
and then rejects, and whose batch call then returns `m` pages, ends normally with the page
results it started from followed by the `k` streamed records in delivery order and then the
`m` batch records: `k + m` new records, at least `k`. -/
theorem c1_stream_then_fallback (t : Transport) (file : FileJob) (fileIndex : Nat) (c : Ctx)
    (e : Option String) (pages : List PageData)
    (hpdf : file.type = "application/pdf")
    (hrt : c.state.useRealTimeProcessing = true)
    (hrej : (processFileStream t.wsEvents).outcome = some (.rejected e))
    (hbatch : t.batch = .ok pages) :
    ∃ c2, processEntry t file fileIndex c = .done c2 ∧
      c2.state.pageResults
        = c.state.pageResults
          ++ (delivered (processFileStream t.wsEvents).calls).map (streamRecord fileIndex file)
          ++ batchRecords fileIndex file 0 pages ∧
      c2.state.pageResults.length
        = c.state.pageResults.length
          + ((delivered (processFileStream t.wsEvents).calls).length + pages.length) ∧
      c.state.pageResults.length + (delivered (processFileStream t.wsEvents).calls).length
        ≤ c2.state.pageResults.length ∧
      c2.trace = c.trace ++ [.streamCall fileIndex, .batchCall fileIndex] := by
  obtain ⟨c2, h2, hres, htr⟩ :=
    processWithStandardAPI_ok t file fileIndex
      { state :=
          applyCallbacks fileIndex file (markCurrent c.state file fileIndex)
            (processFileStream t.wsEvents).calls
        trace := c.trace ++ [.streamCall fileIndex] } pages hbatch
  have hval : c2.state.pageResults
      = c.state.pageResults
        ++ (delivered (processFileStream t.wsEvents).calls).map (streamRecord fileIndex file)
        ++ batchRecords fileIndex file 0 pages := by
    rw [hres, applyCallbacks_pageResults]
    rfl
  refine ⟨c2, ?_, hval, ?_, ?_, ?_⟩
  · rw [processEntry_stream t file fileIndex c hpdf hrt, streamBranch]
    simp only [hrej]
    exact h2
  · rw [hval]
    simp [batchRecords_length, Nat.add_assoc]
  · rw [hval]
    simp [Nat.add_assoc]
  · rw [htr]
    simp

/-- C1 in scenario B: one streamed record and two batch records, three in all. -/
theorem c1_stream_then_fallback_witness :
    pdfFile.type = "application/pdf" ∧
    (processFileStream scenarioB.wsEvents).outcome = some (.rejected none) ∧
    (delivered (processFileStream scenarioB.wsEvents).calls).length = 1 ∧
    ∃ c2, processEntry scenarioB pdfFile 0 { state := {}, trace := [] } = .done c2 ∧
      c2.state.pageResults.length = 0 + (1 + 2) := by
  obtain ⟨c2, h1, _, h3, _⟩ :=
    c1_stream_then_fallback scenarioB pdfFile 0 { state := {}, trace := [] } none
      [batchPage 1 "A", batchPage 2 "B"] rfl rfl rfl rfl
  exact ⟨rfl, rfl, rfl, c2, h1, h3⟩

theorem processWithStandardAPI_trace (t : Transport) (f : FileJob) (i : Nat) (c : Ctx) :
    (processWithStandardAPI t f i c).ctx.trace = c.trace ++ [.batchCall i] := by
  unfold processWithStandardAPI
  cases hb : t.batch with
  | error msg => rfl
  | ok results =>
      by_cases hlen : 0 < results.length
      · simp [hlen, Outcome.ctx]
      · simp [hlen, Outcome.ctx]

theorem streamBranch_trace (t : Transport) (f : FileJob) (i : Nat) (c : Ctx) :
    ∃ tail, (streamBranch t f i c).ctx.trace = c.trace ++ .streamCall i :: tail ∧
      (tail = [] ∨ tail = [.batchCall i]) := by
  simp only [streamBranch]
  cases ho : (processFileStream t.wsEvents).outcome with
  | none => exact ⟨[], by simp [ho, Outcome.ctx], Or.inl rfl⟩
  | some o =>
      cases o with
      | resolved => exact ⟨[], by simp [ho, Outcome.ctx], Or.inl rfl⟩
      | rejected e =>
          refine ⟨[.batchCall i], ?_, Or.inr rfl⟩
          simp [ho, processWithStandardAPI_trace]

/-- C4: the loop body invokes the streaming transport first exactly when the file's MIME
type is `application/pdf` and the real-time toggle is on, and otherwise invokes the batch
transport first; for a file that is not a PDF it invokes the batch transport and nothing
else, whatever the toggle is. -/
theorem c4_transport_choice (t : Transport) (file : FileJob) (fileIndex : Nat) (c : Ctx) :
    (∃ extra, (processEntry t file fileIndex c).ctx.trace = c.trace ++ extra ∧
      (extra.head? = some (.streamCall fileIndex)
        ↔ (file.type = "application/pdf" ∧ c.state.useRealTimeProcessing = true)) ∧
      (extra.head? = some (.batchCall fileIndex)
        ↔ ¬ (file.type = "application/pdf" ∧ c.state.useRealTimeProcessing = true))) ∧
    (file.type ≠ "application/pdf" →
      (processEntry t file fileIndex c).ctx.trace = c.trace ++ [.batchCall fileIndex]) := by
  constructor
  · by_cases h : file.type = "application/pdf" ∧ c.state.useRealTimeProcessing = true
    · obtain ⟨tail, htr, _⟩ :=
        streamBranch_trace t file fileIndex { c with state := markCurrent c.state file fileIndex }
      refine ⟨.streamCall fileIndex :: tail, ?_, ?_, ?_⟩
      · rw [processEntry_stream t file fileIndex c h.1 h.2]
        exact htr
      · simp [h]
      · simp [h]
    · refine ⟨[.batchCall fileIndex], ?_, ?_, ?_⟩
      · rw [processEntry_batch t file fileIndex c h, processWithStandardAPI_trace]
      · simp [h]
      · simp [h]
  · intro hne
    rw [processEntry_batch t file fileIndex c (fun h => hne h.1), processWithStandardAPI_trace]

/-- C4 in scenario D: an image goes to the batch transport although the toggle is on. -/
theorem c4_transport_choice_witness :
    imageFile.type ≠ "application/pdf" ∧
    (processEntry scenarioB imageFile 0 { state := {}, trace := [] }).ctx.trace
      = [] ++ [.batchCall 0] :=
  ⟨by decide, (c4_transport_choice scenarioB imageFile 0 { state := {}, trace := [] }).2 (by decide)⟩

/-! ### The empty queue (C5) -/

/-- C5: with an empty queue `handleUpload` returns at once: no action is performed (no
transport call, no write of the global processing flag) and the session is unchanged in
every field. -/
theorem c5_empty_queue_noop (net : Nat → Transport) (s : Session) (h : s.files = []) :
    handleUpload net s = { state := s, trace := [], returned := true } ∧
    (∀ i, Action.streamCall i ∉ (handleUpload net s).trace ∧
      Action.batchCall i ∉ (handleUpload net s).trace) ∧
    Action.setGlobalProcessing true ∉ (handleUpload net s).trace := by
  have hrun : handleUpload net s = { state := s, trace := [], returned := true } := by
    simp [handleUpload, h]
  refine ⟨hrun, ?_, ?_⟩
  · intro i
    rw [hrun]
    simp
  · rw [hrun]
    simp

/-- C5 in scenario C: the initial session, whose queue is empty. -/
theorem c5_empty_queue_noop_witness :
    ({} : Session).files = [] ∧
    handleUpload (fun _ => scenarioB) {} = { state := {}, trace := [], returned := true } :=
  ⟨rfl, (c5_empty_queue_noop (fun _ => scenarioB) {} rfl).1⟩

/-! ### Streamed records (C3) -/

theorem settled_eq (st st2 : StreamState) (ev : WsEvent) :
    (onEvent st ev).settled = (onEvent st2 ev).settled := by
  cases ev <;> rfl

/-- The records of the delivered page results are those of the `page_complete` events among
the events handled. -/
theorem delivered_runStream (i : Nat) (f : FileJob) (events : List WsEvent) :
    ∀ st : StreamState, (delivered (runStream st events).calls).map (streamRecord i f)
      = (received events).filterMap (pageCompleteRecord i f) := by
  induction events with
  | nil => intro st; rfl
  | cons ev rest ih =>
      intro st
      cases ev with
      | pageStart page total =>
          simp [runStream, onEvent, received, settles, delivered, pageCompleteRecord, ih]
      | pageComplete page text error confidence preview =>
          simp [runStream, onEvent, received, settles, delivered, pageCompleteRecord, ih,
            streamRecord]
      | processingComplete =>
          simp [runStream, onEvent, received, settles, delivered, pageCompleteRecord]
      | error msg =>
          simp [runStream, onEvent, received, settles, delivered, pageCompleteRecord]
      | unknown =>
          simp [runStream, onEvent, received, settles, delivered, pageCompleteRecord, ih]
      | malformed =>
          simp [runStream, onEvent, received, settles, delivered, pageCompleteRecord, ih]
      | socketError =>
          simp [runStream, onEvent, received, settles, delivered, pageCompleteRecord]

/-- C3: the records appended during one streaming call are exactly one record per
`page_complete` event handled, in arrival order, whatever page numbers the events carry. A
`page_complete` event that carries an error settles nothing, so the events after it are still
handled, and its record holds that error (an error is a non-empty message: `error || null`
turns the empty string into `null`). -/
theorem c3_one_record_per_page_complete (fileIndex : Nat) (file : FileJob) :
    (∀ (s : Session) (events : List WsEvent),
      (applyCallbacks fileIndex file s (processFileStream events).calls).pageResults
        = s.pageResults ++ (received events).filterMap (pageCompleteRecord fileIndex file)) ∧
    (∀ (st : StreamState) (page : Int) (text : Option String) (e : String)
        (confidence : Option JSNum) (preview : Option String) (rest : List WsEvent),
      (onEvent st (.pageComplete page text (some e) confidence preview)).settled = none ∧
      received (.pageComplete page text (some e) confidence preview :: rest)
        = .pageComplete page text (some e) confidence preview :: received rest) ∧
    (∀ (page : Int) (text : Option String) (e : String) (confidence : Option JSNum)
        (preview : Option String), e ≠ "" →
      ∃ r, pageCompleteRecord fileIndex file (.pageComplete page text (some e) confidence preview)
          = some r ∧ r.error = some e ∧ r.pageNumber = page) := by
  refine ⟨?_, ?_, ?_⟩
  · intro s events
    rw [applyCallbacks_pageResults, processFileStream, delivered_runStream]
  · intro st page text e confidence preview rest
    exact ⟨rfl, rfl⟩
  · intro page text e confidence preview he
    exact ⟨_, rfl, by simp [strOrNull, he], rfl⟩

/-- C3 on a stream whose first page fails and whose pages arrive out of order. -/
theorem c3_one_record_per_page_complete_witness :
    ("bad scan" : String) ≠ "" ∧
    ∃ r, pageCompleteRecord 0 pdfFile (.pageComplete 2 none (some "bad scan") none none)
        = some r ∧ r.error = some "bad scan" ∧ r.pageNumber = 2 :=
  ⟨by decide,
   (c3_one_record_per_page_complete 0 pdfFile).2.2 2 none "bad scan" none none (by decide)⟩

/-! ### A failing batch call (C2) -/

theorem processWithStandardAPI_error (t : Transport) (f : FileJob) (i : Nat) (c : Ctx)
    (msg : String) (hb : t.batch = .error msg) :
    ∃ c1, processWithStandardAPI t f i c = .threw msg c1 := by
  unfold processWithStandardAPI
  simp only [hb]
  exact ⟨_, rfl⟩

/-- The actions of the loop body are calls for its own file; if the batch transport is among
them and fails, the body throws with the message of the failure. -/
theorem processEntry_spec (t : Transport) (f : FileJob) (k : Nat) (c : Ctx) :
    ∃ extra, (processEntry t f k c).ctx.trace = c.trace ++ extra ∧
      (∀ a ∈ extra, a = Action.streamCall k ∨ a = Action.batchCall k) ∧
      (∀ msg, Action.batchCall k ∈ extra → t.batch = .error msg →
        ∃ c1, processEntry t f k c = .threw msg c1) := by
  by_cases h : f.type = "application/pdf" ∧ c.state.useRealTimeProcessing = true
  · rw [processEntry_stream t f k c h.1 h.2]
    simp only [streamBranch]
    cases ho : (processFileStream t.wsEvents).outcome with
    | none =>
        refine ⟨[.streamCall k], by simp [Outcome.ctx], by simp, ?_⟩
        intro msg hmem
        simp at hmem
    | some o =>
        cases o with
        | resolved =>
            refine ⟨[.streamCall k], by simp [Outcome.ctx], by simp, ?_⟩
            intro msg hmem
            simp at hmem
        | rejected e =>
            refine ⟨[.streamCall k, .batchCall k], ?_, by simp, ?_⟩
            · simp [processWithStandardAPI_trace]
            · intro msg _ hb
              exact processWithStandardAPI_error t f k _ msg hb
  · rw [processEntry_batch t f k c h]
    refine ⟨[.batchCall k], processWithStandardAPI_trace t f k _, by simp, ?_⟩
    intro msg _ hb
    exact processWithStandardAPI_error t f k _ msg hb

/-- The actions of the loop are calls for the files from index `k` on; once a batch call
fails the loop throws, and no file after the failing one has been given a transport. -/
theorem processEntries_spec (net : Nat → Transport) (files : List FileJob) :
    ∀ (k : Nat) (c : Ctx), ∃ extra,
      (processEntries net k files c).ctx.trace = c.trace ++ extra ∧
      (∀ a ∈ extra, ∃ j, k ≤ j ∧ (a = Action.streamCall j ∨ a = Action.batchCall j)) ∧
      (∀ i msg, Action.batchCall i ∈ extra → (net i).batch = .error msg →
        (∃ c1, processEntries net k files c = .threw msg c1) ∧
        (∀ j, i < j → Action.streamCall j ∉ extra ∧ Action.batchCall j ∉ extra)) := by
  induction files with
  | nil =>
      intro k c
      exact ⟨[], by simp [processEntries, Outcome.ctx], by simp, by simp⟩
  | cons f rest ih =>
      intro k c
      obtain ⟨e1, htr1, hown, hthrow⟩ := processEntry_spec (net k) f k c
      have hle : ∀ a ∈ e1, ∀ j, (a = Action.streamCall j ∨ a = Action.batchCall j) → j = k := by
        intro a ha j hj
        rcases hown a ha with h | h <;> rcases hj with h2 | h2 <;> rw [h] at h2 <;> cases h2 <;> rfl
      cases hout : processEntry (net k) f k c with
      | done c1 =>
          obtain ⟨e2, htr2, hidx2, hfail2⟩ := ih (k + 1) c1
          have hc1 : c1.trace = c.trace ++ e1 := by simpa [hout, Outcome.ctx] using htr1
          refine ⟨e1 ++ e2, ?_, ?_, ?_⟩
          · simp only [processEntries, hout]
            rw [htr2, hc1, List.append_assoc]
          · intro a ha
            rcases List.mem_append.mp ha with h | h
            · rcases hown a h with h1 | h1
              · exact ⟨k, le_refl k, Or.inl h1⟩
              · exact ⟨k, le_refl k, Or.inr h1⟩
            · obtain ⟨j, hj, hj2⟩ := hidx2 a h
              exact ⟨j, by omega, hj2⟩
          · intro i msg hmem hb
            rcases List.mem_append.mp hmem with h | h
            · have hik : i = k := hle _ h i (Or.inr rfl)
              subst hik
              obtain ⟨c2, hc2⟩ := hthrow msg h hb
              rw [hout] at hc2
              cases hc2
            · obtain ⟨hthr, hlater⟩ := hfail2 i msg h hb
              obtain ⟨j0, hj0, hj0eq⟩ := hidx2 _ h
              have hki : k + 1 ≤ i := by
                rcases hj0eq with h3 | h3
                · cases h3
                · cases h3
                  exact hj0
              refine ⟨?_, ?_⟩
              · simp only [processEntries, hout]
                exact hthr
              · intro j hij
                refine ⟨?_, ?_⟩
                · intro hm
                  rcases List.mem_append.mp hm with h4 | h4
                  · have := hle _ h4 j (Or.inl rfl)
                    omega
                  · exact (hlater j hij).1 h4
                · intro hm
                  rcases List.mem_append.mp hm with h4 | h4
                  · have := hle _ h4 j (Or.inr rfl)
                    omega
                  · exact (hlater j hij).2 h4
      | threw msg1 c1 =>
          refine ⟨e1, ?_, ?_, ?_⟩
          · simp only [processEntries, hout]
            simpa [hout] using htr1
          · intro a ha
            rcases hown a ha with h1 | h1
            · exact ⟨k, le_refl k, Or.inl h1⟩
            · exact ⟨k, le_refl k, Or.inr h1⟩
          · intro i msg hmem hb
            have hik : i = k := hle _ hmem i (Or.inr rfl)
            subst hik
            obtain ⟨c2, hc2⟩ := hthrow msg hmem hb
            refine ⟨⟨c2, ?_⟩, ?_⟩
            · simp only [processEntries, hout]
              rw [hout] at hc2
              cases hc2
              rfl
            · intro j hij
              refine ⟨?_, ?_⟩
              · intro hm
                have := hle _ hm j (Or.inl rfl)
                omega
              · intro hm
                have := hle _ hm j (Or.inr rfl)
                omega
      | pending c1 =>
          refine ⟨e1, ?_, ?_, ?_⟩
          · simp only [processEntries, hout]
            simpa [hout] using htr1
          · intro a ha
            rcases hown a ha with h1 | h1
            · exact ⟨k, le_refl k, Or.inl h1⟩
            · exact ⟨k, le_refl k, Or.inr h1⟩
          · intro i msg hmem hb
            have hik : i = k := hle _ hmem i (Or.inr rfl)
            subst hik
            obtain ⟨c2, hc2⟩ := hthrow msg hmem hb
            rw [hout] at hc2
            cases hc2

/-- C2, as stated, fails on a queue of two images when the batch call for the first one
fails: an error record is appended, but no transport is invoked for the second file. -/
theorem c2_counterexample :
    2 ≤ twoImages.files.length ∧
    (∃ msg, (failFirst 0).batch = .error msg) ∧
    Action.batchCall 0 ∈ (handleUpload failFirst twoImages).trace ∧
    (handleUpload failFirst twoImages).returned = true ∧
    Action.streamCall 1 ∉ (handleUpload failFirst twoImages).trace ∧
    Action.batchCall 1 ∉ (handleUpload failFirst twoImages).trace ∧
    (handleUpload failFirst twoImages).trace
      = [.setGlobalProcessing true, .batchCall 0, .setGlobalProcessing false] := by
  refine ⟨by decide, ⟨_, rfl⟩, by decide, by decide, by decide, by decide, by decide⟩

/-- The upload-progress callback of the batch call leaves the transport switch alone. -/
theorem uploadProgress_useRealTimeProcessing (ps : List JSNum) :
    ∀ s : Session,
      (ps.foldl
        (fun s progress =>
          { s with processingProgress := updateProgress s.processingProgress progress (.fin 100) })
        s).useRealTimeProcessing = s.useRealTimeProcessing := by
  induction ps with
  | nil => intro s; rfl
  | cons p ps ih => intro s; rw [List.foldl_cons, ih]

theorem processWithStandardAPI_useRealTimeProcessing (t : Transport) (f : FileJob) (i : Nat)
    (c : Ctx) :
    (processWithStandardAPI t f i c).ctx.state.useRealTimeProcessing
      = c.state.useRealTimeProcessing := by
  unfold processWithStandardAPI
  cases hb : t.batch with
  | error msg => simp [Outcome.ctx, uploadProgress_useRealTimeProcessing]
  | ok results =>
      by_cases hlen : 0 < results.length
      · simp [hlen, Outcome.ctx, uploadProgress_useRealTimeProcessing]
      · simp [hlen, Outcome.ctx, uploadProgress_useRealTimeProcessing]

theorem processEntry_useRealTimeProcessing (t : Transport) (f : FileJob) (k : Nat) (c : Ctx) :
    (processEntry t f k c).ctx.state.useRealTimeProcessing = c.state.useRealTimeProcessing := by
  by_cases h : f.type = "application/pdf" ∧ c.state.useRealTimeProcessing = true
  · rw [processEntry_stream t f k c h.1 h.2]
    simp only [streamBranch]
    cases ho : (processFileStream t.wsEvents).outcome with
    | none => simp [Outcome.ctx, applyCallbacks_useRealTimeProcessing, markCurrent]
    | some o =>
        cases o with
        | resolved => simp [Outcome.ctx, applyCallbacks_useRealTimeProcessing, markCurrent]
        | rejected e =>
            simp only []
            rw [processWithStandardAPI_useRealTimeProcessing]
            simp [applyCallbacks_useRealTimeProcessing, markCurrent]
  · rw [processEntry_batch t f k c h, processWithStandardAPI_useRealTimeProcessing]
    rfl

theorem processEntries_useRealTimeProcessing (net : Nat → Transport) (files : List FileJob) :
    ∀ (k : Nat) (c : Ctx),
      (processEntries net k files c).ctx.state.useRealTimeProcessing
        = c.state.useRealTimeProcessing := by
  induction files with
  | nil => intro k c; rfl
  | cons f rest ih =>
      intro k c
      have h1 := processEntry_useRealTimeProcessing (net k) f k c
      cases hout : processEntry (net k) f k c with
      | done c1 =>
          rw [hout] at h1
          simp only [processEntries, hout]
          rw [ih (k + 1) c1]
          exact h1
      | threw msg c1 =>
          rw [hout] at h1
          simpa [processEntries, hout] using h1
      | pending c1 =>
          rw [hout] at h1
          simpa [processEntries, hout] using h1

/-- A batch call that throws was made on a failing transport; it adds its own call to the
trace and no page result. -/
theorem processWithStandardAPI_threw (t : Transport) (f : FileJob) (i : Nat) (c c1 : Ctx)
    (msg : String) (h : processWithStandardAPI t f i c = .threw msg c1) :
    t.batch = .error msg ∧ c1.trace = c.trace ++ [.batchCall i] ∧
    c1.state.pageResults = c.state.pageResults := by
  unfold processWithStandardAPI at h
  cases hb : t.batch with
  | error m =>
      simp only [hb] at h
      injection h with hm hc
      subst hm
      subst hc
      exact ⟨rfl, rfl, uploadProgress_pageResults _ _⟩
  | ok results =>
      simp only [hb] at h
      by_cases hlen : 0 < results.length
      · simp [hlen] at h
      · simp [hlen] at h

/-- When the loop body throws, its batch call has failed with the message thrown, and the
page results at the throw are those before the body plus the records the streaming attempt,
if there was one, has delivered. -/
theorem processEntry_threw (t : Transport) (f : FileJob) (k : Nat) (c c1 : Ctx) (msg : String)
    (h : processEntry t f k c = .threw msg c1) :
    t.batch = .error msg ∧ Action.batchCall k ∈ c1.trace ∧
    c1.state.pageResults
      = c.state.pageResults
        ++ (if f.type = "application/pdf" ∧ c.state.useRealTimeProcessing = true
            then (received t.wsEvents).filterMap (pageCompleteRecord k f) else []) := by
  by_cases hs : f.type = "application/pdf" ∧ c.state.useRealTimeProcessing = true
  · rw [processEntry_stream t f k c hs.1 hs.2] at h
    simp only [streamBranch] at h
    cases ho : (processFileStream t.wsEvents).outcome with
    | none => simp [ho] at h
    | some o =>
        cases o with
        | resolved => simp [ho] at h
        | rejected e =>
            simp only [ho] at h
            obtain ⟨hb, htr, hpr⟩ := processWithStandardAPI_threw t f k _ c1 msg h
            refine ⟨hb, by simp [htr], ?_⟩
            rw [hpr, if_pos hs]
            simp only []
            rw [applyCallbacks_pageResults, processFileStream, delivered_runStream]
            rfl
  · rw [processEntry_batch t f k c hs] at h
    obtain ⟨hb, htr, hpr⟩ := processWithStandardAPI_threw t f k _ c1 msg h
    refine ⟨hb, by simp [htr], ?_⟩
    rw [hpr, if_neg hs]
    simp [markCurrent]

/-- When the loop throws, the files before the one whose body threw have been processed to
the end, and the body of that file is what threw. -/
theorem processEntries_threw (net : Nat → Transport) (files : List FileJob) :
    ∀ (k : Nat) (c c1 : Ctx) (msg : String),
      processEntries net k files c = .threw msg c1 →
      ∃ (pre post : List FileJob) (f : FileJob) (cpre : Ctx),
        files = pre ++ f :: post ∧
        processEntries net k pre c = .done cpre ∧
        processEntry (net (k + pre.length)) f (k + pre.length) cpre = .threw msg c1 := by
  induction files with
  | nil =>
      intro k c c1 msg h
      simp [processEntries] at h
  | cons f rest ih =>
      intro k c c1 msg h
      cases hout : processEntry (net k) f k c with
      | done c2 =>
          simp only [processEntries, hout] at h
          obtain ⟨pre, post, g, cpre, hfiles, hdone, hthrew⟩ := ih (k + 1) c2 c1 msg h
          refine ⟨f :: pre, post, g, cpre, by simp [hfiles], ?_, ?_⟩
          · simp only [processEntries, hout]
            exact hdone
          · have hidx : k + (f :: pre).length = k + 1 + pre.length := by
              simp only [List.length_cons]
              omega
            rw [hidx]
            exact hthrew
      | threw m c2 =>
          simp only [processEntries, hout] at h
          injection h with hm hc
          subst hm
          subst hc
          exact ⟨[], rest, f, c, rfl, rfl, by simpa using hout⟩
      | pending c2 =>
          simp [processEntries, hout] at h

/-- C2 (amended): when the batch call that `handleUpload` makes for the file at index `i`
fails (directly or as the fallback after a streaming failure), the failure ends the run: no
transport is invoked for any later file, and `handleUpload` returns with the global
processing flag, the current-file marker and the stage cleared. The page results at the end
are those the loop has recorded for the files before index `i`, processed to the end, then
the records delivered by the streaming attempt for file `i` when there was one, then one
error record carrying the failure message. -/
theorem c2_batch_failure_ends_run (net : Nat → Transport) (s : Session) (i : Nat)
    (msg : String)
    (hcall : Action.batchCall i ∈ (handleUpload net s).trace)
    (hfail : (net i).batch = .error msg) :
    (∀ j, i < j →
      Action.streamCall j ∉ (handleUpload net s).trace ∧
      Action.batchCall j ∉ (handleUpload net s).trace) ∧
    (∃ (pre post : List FileJob) (f : FileJob) (cpre : Ctx) (r : PageRecord),
      s.files = pre ++ f :: post ∧ pre.length = i ∧
      processEntries net 0 pre
        { state := { s with globalProcessing := true, pageResults := [], showChat := false }
          trace := [.setGlobalProcessing true] } = .done cpre ∧
      (handleUpload net s).state.pageResults
        = cpre.state.pageResults
          ++ (if f.type = "application/pdf" ∧ s.useRealTimeProcessing = true
              then (received (net i).wsEvents).filterMap (pageCompleteRecord i f) else [])
          ++ [r] ∧
      r.error = some ("Processing failed: " ++ msg) ∧ r.extractedText = "" ∧
      r.pageNumber = 1) ∧
    (handleUpload net s).returned = true ∧
    (handleUpload net s).state.globalProcessing = false ∧
    (handleUpload net s).state.currentProcessing = none ∧
    (handleUpload net s).state.processingStage = "" := by
  by_cases hlen : s.files.length = 0
  · simp [handleUpload, hlen] at hcall
  · obtain ⟨extra, htr, _, hf⟩ :=
      processEntries_spec net s.files 0
        { state := { s with globalProcessing := true, pageResults := [], showChat := false }
          trace := [.setGlobalProcessing true] }
    cases hout : processEntries net 0 s.files
        { state := { s with globalProcessing := true, pageResults := [], showChat := false }
          trace := [.setGlobalProcessing true] } with
    | done c =>
        have hrun : (handleUpload net s).trace = c.trace ++ [.setGlobalProcessing false] := by
          simp [handleUpload, hlen, hout, finish]
        have hc : c.trace = [.setGlobalProcessing true] ++ extra := by
          simpa [hout, Outcome.ctx] using htr
        have hmem : Action.batchCall i ∈ extra := by
          rw [hrun, hc] at hcall
          simpa using hcall
        obtain ⟨⟨c1, hc1⟩, _⟩ := hf i msg hmem hfail
        rw [hout] at hc1
        cases hc1
    | pending c =>
        have hrun : (handleUpload net s).trace = c.trace := by
          simp [handleUpload, hlen, hout]
        have hc : c.trace = [.setGlobalProcessing true] ++ extra := by
          simpa [hout, Outcome.ctx] using htr
        have hmem : Action.batchCall i ∈ extra := by
          rw [hrun, hc] at hcall
          simpa using hcall
        obtain ⟨⟨c1, hc1⟩, _⟩ := hf i msg hmem hfail
        rw [hout] at hc1
        cases hc1
    | threw msg1 c =>
        have hrun : (handleUpload net s).trace = c.trace ++ [.setGlobalProcessing false] := by
          simp [handleUpload, hlen, hout, finish]
        have hc : c.trace = [.setGlobalProcessing true] ++ extra := by
          simpa [hout, Outcome.ctx] using htr
        have hmem : Action.batchCall i ∈ extra := by
          rw [hrun, hc] at hcall
          simpa using hcall
        obtain ⟨⟨c1, hc1⟩, hlater⟩ := hf i msg hmem hfail
        rw [hout] at hc1
        cases hc1
        obtain ⟨pre, post, f, cpre, hfiles, hdone, hthrew⟩ :=
          processEntries_threw net s.files 0 _ c msg hout
        obtain ⟨hbatch, hcalled, hresults⟩ := processEntry_threw _ f _ cpre c msg hthrew
        have hmemj : Action.batchCall (0 + pre.length) ∈ extra := by
          rw [hc] at hcalled
          simpa using hcalled
        obtain ⟨_, hlaterj⟩ := hf (0 + pre.length) msg hmemj hbatch
        have hidx : 0 + pre.length = i := by
          rcases Nat.lt_trichotomy (0 + pre.length) i with h | h | h
          · exact absurd hmem (hlaterj i h).2
          · exact h
          · exact absurd hmemj (hlater _ h).2
        rw [hidx] at hresults
        have hrt : cpre.state.useRealTimeProcessing = s.useRealTimeProcessing := by
          have := processEntries_useRealTimeProcessing net pre 0
            { state := { s with globalProcessing := true, pageResults := [], showChat := false }
              trace := [.setGlobalProcessing true] }
          rw [hdone] at this
          exact this
        rw [hrt] at hresults
        refine ⟨?_, ?_, ?_, ?_, ?_, ?_⟩
        · intro j hij
          rw [hrun, hc]
          have := hlater j hij
          simp [this.1, this.2]
        · refine ⟨pre, post, f, cpre, errorResult s.files msg, hfiles, by omega, hdone, ?_,
            rfl, rfl, rfl⟩
          rw [← hresults]
          simp [handleUpload, hlen, hout, finish]
        · simp [handleUpload, hlen, hout, finish]
        · simp [handleUpload, hlen, hout, finish]
        · simp [handleUpload, hlen, hout, finish]
        · simp [handleUpload, hlen, hout, finish]

/-- C2 (amended) on a queue of three images whose second batch call fails: the page of the
first file is kept, one error record follows, and the third file gets no transport. -/
theorem c2_batch_failure_ends_run_witness :
    Action.batchCall 1 ∈ (handleUpload failSecond threeImages).trace ∧
    (failSecond 1).batch = .error "Network error: Could not connect to OCR service" ∧
    (handleUpload failSecond threeImages).state.pageResults.map
        (fun r => (r.fileName, r.extractedText, r.error))
      = [ ("scan.png", "A", none),
          ("scan.png", "",
            some "Processing failed: Network error: Could not connect to OCR service") ] ∧
    (∀ j, 1 < j →
      Action.streamCall j ∉ (handleUpload failSecond threeImages).trace ∧
      Action.batchCall j ∉ (handleUpload failSecond threeImages).trace) ∧
    (∃ (pre post : List FileJob) (f : FileJob) (cpre : Ctx) (r : PageRecord),
      threeImages.files = pre ++ f :: post ∧ pre.length = 1 ∧
      processEntries failSecond 0 pre
        { state :=
            { threeImages with globalProcessing := true, pageResults := [], showChat := false }
          trace := [.setGlobalProcessing true] } = .done cpre ∧
      (handleUpload failSecond threeImages).state.pageResults
        = cpre.state.pageResults
          ++ (if f.type = "application/pdf" ∧ threeImages.useRealTimeProcessing = true
              then (received (failSecond 1).wsEvents).filterMap (pageCompleteRecord 1 f)
              else [])
          ++ [r] ∧
      r.error
        = some ("Processing failed: " ++ "Network error: Could not connect to OCR service") ∧
      r.extractedText = "" ∧ r.pageNumber = 1) :=
  ⟨by decide, rfl, by decide,
   (c2_batch_failure_ends_run failSecond threeImages 1
      "Network error: Could not connect to OCR service" (by decide) rfl).1,
   (c2_batch_failure_ends_run failSecond threeImages 1
      "Network error: Could not connect to OCR service" (by decide) rfl).2.1⟩

/-! ### Runs of the streaming client -/

/-- Events that settle nothing are all handled, and more events can follow. -/
theorem runStream_append (xs ys : List WsEvent) (hxs : ∀ ev ∈ xs, settles ev = false) :
    ∀ st : StreamState,
      (runStream st (xs ++ ys)).calls
        = (runStream st xs).calls ++ (runStream (runStream st xs).final ys).calls ∧
      (runStream st (xs ++ ys)).outcome = (runStream (runStream st xs).final ys).outcome ∧
      (runStream st (xs ++ ys)).final = (runStream (runStream st xs).final ys).final := by
  induction xs with
  | nil => intro st; simp [runStream]
  | cons x xs ih =>
      intro st
      have hx : settles x = false := hxs x (List.mem_cons_self x xs)
      have hrest : ∀ ev ∈ xs, settles ev = false := fun ev h => hxs ev (List.mem_cons_of_mem x h)
      have hnone : (onEvent st x).settled = none := by
        have h := hx
        unfold settles at h
        rw [settled_eq {} st] at h
        simpa using h
      obtain ⟨h1, h2, h3⟩ := ih hrest (onEvent st x).state
      simp only [List.cons_append, runStream, hnone]
      refine ⟨?_, h2, h3⟩
      simp [h1]

/-- While nothing settles, the promise is pending and `processedPages` counts the
`page_complete` events. -/
theorem runStream_unsettled (xs : List WsEvent) (hxs : ∀ ev ∈ xs, settles ev = false) :
    ∀ st : StreamState,
      (runStream st xs).outcome = none ∧
      (runStream st xs).final.processedPages = st.processedPages + xs.countP isPageComplete := by
  induction xs with
  | nil => intro st; simp [runStream]
  | cons x xs ih =>
      intro st
      have hrest : ∀ ev ∈ xs, settles ev = false := fun ev h => hxs ev (List.mem_cons_of_mem x h)
      have hx : settles x = false := hxs x (List.mem_cons_self x xs)
      cases x with
      | pageStart page total =>
          obtain ⟨h1, h2⟩ := ih hrest { st with totalPages := total }
          simp [runStream, onEvent, isPageComplete, h1, h2]
      | pageComplete page text error confidence preview =>
          obtain ⟨h1, h2⟩ := ih hrest { st with processedPages := st.processedPages + 1 }
          simp [runStream, onEvent, isPageComplete, h1, h2]
          omega
      | processingComplete => simp [settles, onEvent] at hx
      | error msg => simp [settles, onEvent] at hx
      | unknown =>
          obtain ⟨h1, h2⟩ := ih hrest st
          simp [runStream, onEvent, isPageComplete, h1, h2]
      | malformed =>
          obtain ⟨h1, h2⟩ := ih hrest st
          simp [runStream, onEvent, isPageComplete, h1, h2]
      | socketError => simp [settles, onEvent] at hx

/-- A pending promise means that no event handled settled it. -/
theorem unsettled_of_pending (xs : List WsEvent) :
    ∀ st : StreamState, (runStream st xs).outcome = none → ∀ ev ∈ xs, settles ev = false := by
  induction xs with
  | nil => intro st _ ev hev; simp at hev
  | cons x xs ih =>
      intro st h ev hev
      cases hs : (onEvent st x).settled with
      | some o => simp [runStream, hs] at h
      | none =>
          have hx : settles x = false := by
            unfold settles
            rw [settled_eq {} st, hs]
            rfl
          rcases List.mem_cons.mp hev with h1 | h1
          · rw [h1]; exact hx
          · refine ih (onEvent st x).state ?_ ev h1
            simpa [runStream, hs] using h

/-- The variable `totalPages` holds the value of the latest `page_start` event. -/
theorem runStream_totalPages (xs : List WsEvent) (hxs : ∀ ev ∈ xs, settles ev = false) :
    ∀ st : StreamState,
      (runStream st xs).final.totalPages
        = xs.foldl
            (fun acc ev =>
              match ev with
              | .pageStart _ total => total
              | _ => acc)
            st.totalPages := by
  induction xs with
  | nil => intro st; simp [runStream]
  | cons x xs ih =>
      intro st
      have hrest : ∀ ev ∈ xs, settles ev = false := fun ev h => hxs ev (List.mem_cons_of_mem x h)
      have hx : settles x = false := hxs x (List.mem_cons_self x xs)
      cases x with
      | pageStart page total =>
          have := ih hrest { st with totalPages := total }
          simp [runStream, onEvent, this]
      | pageComplete page text error confidence preview =>
          have := ih hrest { st with processedPages := st.processedPages + 1 }
          simp [runStream, onEvent, this]
      | processingComplete => simp [settles, onEvent] at hx
      | error msg => simp [settles, onEvent] at hx
      | unknown =>
          have := ih hrest st
          simp [runStream, onEvent, this]
      | malformed =>
          have := ih hrest st
          simp [runStream, onEvent, this]
      | socketError => simp [settles, onEvent] at hx

/-- When every `page_start` announces the same total, the variable keeps that value. -/
theorem foldl_total_const (n : Int) (xs : List WsEvent)
    (hxs : ∀ ev ∈ xs, ∀ page total, ev = WsEvent.pageStart page total → total = n) :
    xs.foldl
        (fun acc ev =>
          match ev with
          | .pageStart _ total => total
          | _ => acc)
        n = n := by
  induction xs with
  | nil => rfl
  | cons x xs ih =>
      have hrest : ∀ ev ∈ xs, ∀ page total, ev = WsEvent.pageStart page total → total = n :=
        fun ev h => hxs ev (List.mem_cons_of_mem x h)
      cases x with
      | pageStart page total =>
          have : total = n := hxs _ (List.mem_cons_self _ xs) page total rfl
          subst this
          simpa using ih hrest
      | pageComplete page text error confidence preview => simpa using ih hrest
      | processingComplete => simpa using ih hrest
      | error msg => simpa using ih hrest
      | unknown => simpa using ih hrest
      | malformed => simpa using ih hrest
      | socketError => simpa using ih hrest

/-- Messages that are skipped fire no callback; `processing_complete` then resolves. -/
theorem runStream_skipped_then_complete (tail : List WsEvent)
    (htail : ∀ ev ∈ tail, ev = WsEvent.unknown ∨ ev = WsEvent.malformed) :
    ∀ st : StreamState,
      runStream st (tail ++ [.processingComplete])
        = { calls := [], outcome := some .resolved, final := st } := by
  induction tail with
  | nil => intro st; rfl
  | cons x xs ih =>
      intro st
      have hrest : ∀ ev ∈ xs, ev = WsEvent.unknown ∨ ev = WsEvent.malformed :=
        fun ev h => htail ev (List.mem_cons_of_mem x h)
      rcases htail x (List.mem_cons_self x xs) with h | h
      · subst h
        simp [runStream, onEvent, ih hrest st]
      · subst h
        simp [runStream, onEvent, ih hrest st]

/-! ### Completion percentage of a streamed file (C8) -/

/-- The progress callback stores the rounded percentage it is given. -/
theorem applyCallbacks_percentage_last (i : Nat) (f : FileJob) (s : Session)
    (cs : List Callback) (p : StreamProgress) :
    (applyCallbacks i f s (cs ++ [.progress p])).processingProgress.percentage
      = some (JSNum.round (JSNum.mul (JSNum.div p.percentage (.fin 100)) (.fin 100))) := by
  rw [applyCallbacks_append]
  rfl

/-- C8, as stated, fails when a later `page_start` announces another total: the first
`page_start` announces 2 pages, two `page_complete` events follow and the stream resolves,
yet the percentage after the last `page_complete` and at the end is 50. -/
theorem c8_counterexample :
    (processFileStream
      [ .pageStart 1 2, .pageComplete 1 (some "A") none none none,
        .pageStart 2 4, .pageComplete 2 (some "B") none none none,
        .processingComplete ]).outcome = some .resolved ∧
    (applyCallbacks 0 pdfFile {}
      (processFileStream
        [ .pageStart 1 2, .pageComplete 1 (some "A") none none none,
          .pageStart 2 4, .pageComplete 2 (some "B") none none none ]).calls
      ).processingProgress.percentage = some (.fin 50) ∧
    (applyCallbacks 0 pdfFile {}
      (processFileStream
        [ .pageStart 1 2, .pageComplete 1 (some "A") none none none,
          .pageStart 2 4, .pageComplete 2 (some "B") none none none,
          .processingComplete ]).calls
      ).processingProgress.percentage = some (.fin 50) := by
  refine ⟨by decide, by decide!, by decide!⟩

/-- C8 (amended): in a streaming session that starts with a `page_start` announcing
`total_pages = n > 0`, whose later `page_start` events all announce `n` as well, and in which
the `n`-th `page_complete` event is followed by no further `page_start` before
`processing_complete`, the session's percentage is exactly 100 after the last `page_complete`
event and still 100 when the stream resolves. -/
theorem c8_streaming_reaches_100 (fileIndex : Nat) (file : FileJob) (s : Session)
    (p : Int) (n : Nat) (mid tail : List WsEvent) (last : WsEvent)
    (hn : 0 < n)
    (hmid : ∀ ev ∈ mid, settles ev = false ∧ announces n ev = true)
    (hcount : mid.countP isPageComplete + 1 = n)
    (hlast : isPageComplete last = true)
    (htail : ∀ ev ∈ tail, ev = WsEvent.unknown ∨ ev = WsEvent.malformed) :
    (applyCallbacks fileIndex file s
      (processFileStream (.pageStart p n :: mid ++ [last])).calls
      ).processingProgress.percentage = some (.fin 100) ∧
    (processFileStream
      (.pageStart p n :: mid ++ [last] ++ tail ++ [.processingComplete])).outcome
      = some .resolved ∧
    (applyCallbacks fileIndex file s
      (processFileStream
        (.pageStart p n :: mid ++ [last] ++ tail ++ [.processingComplete])).calls
      ).processingProgress.percentage = some (.fin 100) := by
  have hpre : ∀ ev ∈ WsEvent.pageStart p n :: mid, settles ev = false := by
    intro ev hev
    rcases List.mem_cons.mp hev with h | h
    · rw [h]; rfl
    · exact (hmid ev h).1
  have hstate := runStream_unsettled (.pageStart p n :: mid) hpre {}
  have htotal := runStream_totalPages (.pageStart p n :: mid) hpre {}
  have htot : (runStream {} (.pageStart p n :: mid)).final.totalPages = (n : Int) := by
    rw [htotal]
    have hann : ∀ ev ∈ mid, ∀ page total, ev = WsEvent.pageStart page total → total = (n : Int) := by
      intro ev h page total he
      have := (hmid ev h).2
      rw [he] at this
      simpa [announces] using this
    simpa using foldl_total_const (n : Int) mid hann
  have hproc : (runStream {} (.pageStart p n :: mid)).final.processedPages + 1 = n := by
    rw [hstate.2]
    simpa [isPageComplete] using hcount
  have hnq : (n : ℚ) ≠ 0 := by exact_mod_cast (Nat.pos_iff_ne_zero.mp hn)
  obtain ⟨page, text, error, confidence, preview, hl⟩ :
      ∃ page text error confidence preview,
        last = WsEvent.pageComplete page text error confidence preview := by
    cases last <;> simp [isPageComplete] at hlast
    exact ⟨_, _, _, _, _, rfl⟩
  subst hl
  -- the callbacks up to and including the last `page_complete`
  have hcalls : ∃ cs q,
      (runStream {} (.pageStart p n :: mid
        ++ [.pageComplete page text error confidence preview])).calls
        = cs ++ [.progress q] ∧ q.percentage = .fin 100 := by
    obtain ⟨h1, _, _⟩ :=
      runStream_append (.pageStart p n :: mid)
        [.pageComplete page text error confidence preview] hpre {}
    refine ⟨(runStream {} (.pageStart p n :: mid)).calls ++
        [.pageResult
          { pageNumber := page, extractedText := text, error := error,
            confidence := confidence, preview := preview }],
      { totalPages := (runStream {} (.pageStart p n :: mid)).final.totalPages
        currentPage := page
        percentage :=
          JSNum.mul
            (JSNum.div
              (.fin ((runStream {} (.pageStart p n :: mid)).final.processedPages + 1 : ℕ))
              (.fin (runStream {} (.pageStart p n :: mid)).final.totalPages))
            (.fin 100) }, ?_, ?_⟩
    · rw [h1]
      simp [runStream, onEvent]
    · simp only []
      rw [htot, hproc]
      simp only [Int.cast_natCast]
      rw [JSNum.div_self_fin hnq, JSNum.mul_one_hundred]
  obtain ⟨cs, q, hcs, hq⟩ := hcalls
  have hhundred :
      JSNum.round (JSNum.mul (JSNum.div (.fin 100) (.fin 100)) (.fin 100)) = .fin 100 := by
    rw [JSNum.div_self_fin (by norm_num), JSNum.mul_one_hundred, JSNum.round_hundred]
  have hfirst : (applyCallbacks fileIndex file s
      (processFileStream (.pageStart p n :: mid
        ++ [.pageComplete page text error confidence preview])).calls
      ).processingProgress.percentage = some (.fin 100) := by
    rw [processFileStream, hcs, applyCallbacks_percentage_last, hq, hhundred]
  have hall : ∀ ev ∈ WsEvent.pageStart p n :: mid
      ++ [.pageComplete page text error confidence preview], settles ev = false := by
    intro ev hev
    rcases List.mem_append.mp hev with h | h
    · exact hpre ev h
    · rw [List.mem_singleton.mp h]; rfl
  obtain ⟨g1, g2, _⟩ :=
    runStream_append
      (.pageStart p n :: mid ++ [.pageComplete page text error confidence preview])
      (tail ++ [.processingComplete]) hall {}
  rw [runStream_skipped_then_complete tail htail] at g1 g2
  refine ⟨hfirst, ?_, ?_⟩
  · rw [processFileStream, List.append_assoc, g2]
  · rw [processFileStream, List.append_assoc, g1, List.append_nil]
    exact hfirst

/-- C8 (amended) in scenario A: two pages, final progress 100. -/
theorem c8_streaming_reaches_100_witness :
    (processFileStream scenarioA).outcome = some .resolved ∧
    (applyCallbacks 0 pdfFile {} (processFileStream scenarioA).calls
      ).processingProgress.percentage = some (.fin 100) ∧
    ((applyCallbacks 0 pdfFile {} (processFileStream scenarioA).calls).pageResults.map
      (fun r => r.extractedText)) = ["A", "B"] :=
  ⟨(c8_streaming_reaches_100 0 pdfFile {} 1 2
      [.pageComplete 1 (some "A") none none none, .pageStart 2 2] []
      (.pageComplete 2 (some "B") none none none)
      (by decide) (by decide) (by decide) (by decide) (by simp)).2.1,
   (c8_streaming_reaches_100 0 pdfFile {} 1 2
      [.pageComplete 1 (some "A") none none none, .pageStart 2 2] []
      (.pageComplete 2 (some "B") none none none)
      (by decide) (by decide) (by decide) (by decide) (by simp)).2.2,
   by decide⟩

/-! ### What the progress callback reports (C9) -/

theorem announcedTotal_eq (pre : List WsEvent) (hpre : ∀ ev ∈ pre, settles ev = false) :
    (processFileStream pre).final.totalPages = announcedTotal pre := by
  rw [processFileStream, runStream_totalPages pre hpre]
  rfl

/-- C9, as stated, fails when pages complete out of order: on the first `page_complete`
event (`j = 1`), which carries page 3 of 4, the progress callback reports `currentPage = 3`
and the session's `processedPages` becomes 3, not 1. -/
theorem c9_counterexample :
    (processFileStream [.pageStart 3 4, .pageComplete 3 (some "C") none none none]).calls
      = [ .progress { totalPages := 4, currentPage := 3, percentage := .fin 0 },
          .pageResult
            { pageNumber := 3, extractedText := some "C", error := none, confidence := none,
              preview := none },
          .progress { totalPages := 4, currentPage := 3, percentage := .fin 25 } ] ∧
    (applyCallbacks 0 pdfFile {}
      (processFileStream [.pageStart 3 4, .pageComplete 3 (some "C") none none none]).calls
      ).processedPages = 3 ∧
    (applyCallbacks 0 pdfFile {}
      (processFileStream [.pageStart 3 4, .pageComplete 3 (some "C") none none none]).calls
      ).processedPages ≠ 1 := by
  refine ⟨by decide!, by decide!, by decide!⟩

/-- C9 (amended): when the `j`-th `page_complete` event of a streaming session arrives, the
client's own counter `processedPages` becomes `j`, and the progress callback it fires reports
`totalPages` = the latest announced `total_pages`, `currentPage` = the page number the event
carries and `percentage = (j / totalPages) * 100`, the quotient and the product each rounded
to the nearest binary64 number (`57.49999999999999` for page 23 of 40); after that callback
the session's `processedPages` is the page number the event carries and its `totalPages` the
announced total. -/
theorem c9_progress_callback (fileIndex : Nat) (file : FileJob) (s : Session)
    (pre : List WsEvent) (page : Int) (text error : Option String)
    (confidence : Option JSNum) (preview : Option String)
    (hpre : (processFileStream pre).outcome = none) :
    (onEvent (processFileStream pre).final
        (.pageComplete page text error confidence preview)).state.processedPages
      = pre.countP isPageComplete + 1 ∧
    (onEvent (processFileStream pre).final
        (.pageComplete page text error confidence preview)).calls
      = [ .pageResult
            { pageNumber := page, extractedText := text, error := error,
              confidence := confidence, preview := preview },
          .progress
            { totalPages := announcedTotal pre
              currentPage := page
              percentage :=
                JSNum.mul
                  (JSNum.div (.fin ((pre.countP isPageComplete + 1 : ℕ) : ℚ))
                    (.fin (announcedTotal pre)))
                  (.fin 100) } ] ∧
    (processFileStream (pre ++ [.pageComplete page text error confidence preview])).calls
      = (processFileStream pre).calls
        ++ (onEvent (processFileStream pre).final
            (.pageComplete page text error confidence preview)).calls ∧
    (applyCallbacks fileIndex file s
      (processFileStream (pre ++ [.pageComplete page text error confidence preview])).calls
      ).processedPages = page ∧
    (applyCallbacks fileIndex file s
      (processFileStream (pre ++ [.pageComplete page text error confidence preview])).calls
      ).totalPages = announcedTotal pre := by
  have hun : ∀ ev ∈ pre, settles ev = false := unsettled_of_pending pre {} hpre
  have hcount : (processFileStream pre).final.processedPages = pre.countP isPageComplete := by
    have := (runStream_unsettled pre hun {}).2
    simpa [processFileStream] using this
  have htot := announcedTotal_eq pre hun
  have hcalls :
      (processFileStream (pre ++ [.pageComplete page text error confidence preview])).calls
        = (processFileStream pre).calls
          ++ (onEvent (processFileStream pre).final
              (.pageComplete page text error confidence preview)).calls := by
    obtain ⟨h1, _, _⟩ :=
      runStream_append pre [.pageComplete page text error confidence preview] hun {}
    rw [processFileStream, h1]
    simp [runStream, onEvent, processFileStream]
  refine ⟨?_, ?_, hcalls, ?_, ?_⟩
  · simp [onEvent, hcount]
  · simp [onEvent, hcount, htot]
  · rw [hcalls, applyCallbacks_append]
    simp [onEvent, applyCallbacks, applyCallback, onPageResult, onProgress]
  · rw [hcalls, applyCallbacks_append]
    simp [onEvent, applyCallbacks, applyCallback, onPageResult, onProgress, htot]

/-- C9 (amended) when page 3 of 4 is the first to complete. -/
theorem c9_progress_callback_witness :
    (processFileStream [.pageStart 3 4]).outcome = none ∧
    (applyCallbacks 0 pdfFile {}
      (processFileStream ([.pageStart 3 4] ++ [.pageComplete 3 (some "C") none none none])).calls
      ).processedPages = 3 :=
  ⟨by decide,
   (c9_progress_callback 0 pdfFile {} [.pageStart 3 4] 3 (some "C") none none none
      (by decide)).2.2.2.1⟩

/-! ### Progress along a streaming session (C10) -/

/-- The history lists the events handled, and its last session is the one the callbacks of
the whole run produce. -/
theorem eventHistory_consistent (i : Nat) (f : FileJob) (events : List WsEvent) :
    ∀ (s : Session) (st : StreamState),
      (eventHistory i f s st events).map (fun e => e.1) = received events ∧
      applyCallbacks i f s (runStream st events).calls
        = (match (eventHistory i f s st events).getLast? with
           | some e => e.2
           | none => s) := by
  induction events with
  | nil => intro s st; exact ⟨rfl, rfl⟩
  | cons ev rest ih =>
      intro s st
      cases hs : (onEvent st ev).settled with
      | some o =>
          have hset : settles ev = true := by
            unfold settles
            rw [settled_eq {} st, hs]
            rfl
          constructor
          · simp [eventHistory, received, hs, hset]
          · simp [eventHistory, runStream, hs]
      | none =>
          have hset : settles ev = false := by
            unfold settles
            rw [settled_eq {} st, hs]
            rfl
          obtain ⟨ih1, ih2⟩ := ih (applyCallbacks i f s (onEvent st ev).calls) (onEvent st ev).state
          constructor
          · simp [eventHistory, received, hs, hset, ih1]
          · simp only [eventHistory, runStream, hs, applyCallbacks_append]
            rw [ih2]
            cases hH : eventHistory i f (applyCallbacks i f s (onEvent st ev).calls)
                (onEvent st ev).state rest with
            | nil => simp
            | cons x xs =>
                simp only [Option.isSome_none, Bool.false_eq_true, if_false,
                  List.getLast?_cons_cons]
                cases hl : (x :: xs).getLast? with
                | none => simp at hl
                | some e => rfl

/-- After a progress callback the session's `processedPages` is the page number carried by
the event that fired it. -/
theorem afterProgress_processedPages (i : Nat) (f : FileJob) (events : List WsEvent) :
    ∀ (s : Session) (st : StreamState),
      (((eventHistory i f s st events).filter (fun e => (progressPage e.1).isSome)).map
        (fun e => e.2)).map (fun x => x.processedPages)
        = (received events).filterMap progressPage := by
  induction events with
  | nil => intro s st; rfl
  | cons ev rest ih =>
      intro s st
      cases ev with
      | pageStart page total =>
          have h1 : progressPage (.pageStart page total) = some page := rfl
          have := ih (applyCallbacks i f s (onEvent st (.pageStart page total)).calls)
            { st with totalPages := total }
          simpa [eventHistory, onEvent, received, settles, h1, applyCallbacks, applyCallback,
            onProgress] using this
      | pageComplete page text error confidence preview =>
          have h1 : progressPage (.pageComplete page text error confidence preview) = some page :=
            rfl
          have := ih
            (applyCallbacks i f s
              (onEvent st (.pageComplete page text error confidence preview)).calls)
            { st with processedPages := st.processedPages + 1 }
          simpa [eventHistory, onEvent, received, settles, h1, applyCallbacks, applyCallback,
            onProgress, onPageResult] using this
      | processingComplete =>
          have h1 : progressPage .processingComplete = none := rfl
          simp [eventHistory, onEvent, received, settles, h1]
      | error msg =>
          have h1 : progressPage (.error msg) = none := rfl
          simp [eventHistory, onEvent, received, settles, h1]
      | unknown =>
          have h1 : progressPage .unknown = none := rfl
          have := ih (applyCallbacks i f s (onEvent st .unknown).calls) st
          simpa [eventHistory, onEvent, received, settles, h1] using this
      | malformed =>
          have h1 : progressPage .malformed = none := rfl
          have := ih (applyCallbacks i f s (onEvent st .malformed).calls) st
          simpa [eventHistory, onEvent, received, settles, h1] using this
      | socketError =>
          have h1 : progressPage .socketError = none := rfl
          simp [eventHistory, onEvent, received, settles, h1]

/-- With a positive total, the stored percentage does not decrease when the count of
completed pages grows. -/
theorem shownPercentage_mono {n a b : ℚ} (hn : 0 < n) (ha : 0 ≤ a) (hab : a ≤ b) :
    JSNum.le (shownPercentage a n) (shownPercentage b n) = true := by
  have h0 : JSNum.le (.fin 0) (.fin a) = true := by simpa [JSNum.le] using ha
  have h1 : JSNum.le (.fin a) (.fin b) = true := by simpa [JSNum.le] using hab
  have h100 : (0 : ℚ) < 100 := by norm_num
  obtain ⟨p1, q1⟩ := JSNum.div_mono hn h0 h1
  obtain ⟨p2, q2⟩ := JSNum.mul_mono h100 p1 q1
  obtain ⟨p3, q3⟩ := JSNum.div_mono h100 p2 q2
  obtain ⟨p4, q4⟩ := JSNum.mul_mono h100 p3 q3
  exact (JSNum.round_mono p4 q4).2

/-- The percentage the session shows after the `k`-th `page_complete` event of a file
announced with `n` pages: `Math.round` of `((k / n) * 100) / 100 * 100`, each operation
rounded to binary64. -/
theorem percentage_after_page_complete (i : Nat) (f : FileJob) (s : Session) (st : StreamState)
    (n : Nat) (hst : st.totalPages = n) (page : Int) (text error : Option String)
    (confidence : Option JSNum) (preview : Option String) :
    (applyCallbacks i f s
      (onEvent st (.pageComplete page text error confidence preview)).calls).percentage
      = shownPercentage ((st.processedPages + 1 : ℕ) : ℚ) n := by
  simp only [onEvent, applyCallbacks, applyCallback, onPageResult, onProgress,
    Session.percentage, updateProgress, List.foldl, shownPercentage, hst, Int.cast_natCast]

/-- With a fixed positive total, the percentages after the `page_complete` events still to
come are at least the one of each earlier `page_complete`. -/
theorem percentages_sorted (i : Nat) (f : FileJob) (n : Nat) (hn : 0 < n)
    (events : List WsEvent) :
    ∀ (s : Session) (st : StreamState), st.totalPages = n →
      (∀ ev ∈ events, announces n ev = true) →
      List.Pairwise (fun a b => JSNum.le a b = true)
        ((((eventHistory i f s st events).filter (fun e => isPageComplete e.1)).map
          (fun e => e.2)).map Session.percentage) ∧
      ∀ x ∈ (((eventHistory i f s st events).filter (fun e => isPageComplete e.1)).map
          (fun e => e.2)).map Session.percentage,
        ∃ k : ℕ, st.processedPages < k ∧ x = shownPercentage (k : ℚ) n := by
  induction events with
  | nil => intro s st _ _; simp [eventHistory]
  | cons ev rest ih =>
      intro s st hst hev
      have hrest : ∀ e ∈ rest, announces n e = true :=
        fun e h => hev e (List.mem_cons_of_mem ev h)
      cases ev with
      | pageStart page total =>
          have htot : total = (n : Int) := by
            have := hev _ (List.mem_cons_self _ rest)
            simpa [announces] using this
          have := ih (applyCallbacks i f s (onEvent st (.pageStart page total)).calls)
            { st with totalPages := total } (by simp [htot]) hrest
          simpa [eventHistory, onEvent, isPageComplete] using this
      | pageComplete page text error confidence preview =>
          obtain ⟨ihp, ihk⟩ :=
            ih (applyCallbacks i f s
                (onEvent st (.pageComplete page text error confidence preview)).calls)
              { st with processedPages := st.processedPages + 1 } (by simpa using hst) hrest
          have hhead := percentage_after_page_complete i f s st n hst page text error
            confidence preview
          have hunfold :
              ((((eventHistory i f s st
                  (.pageComplete page text error confidence preview :: rest)).filter
                  (fun e => isPageComplete e.1)).map (fun e => e.2)).map Session.percentage)
                = (applyCallbacks i f s
                    (onEvent st (.pageComplete page text error confidence preview)).calls
                    ).percentage
                  :: ((((eventHistory i f
                      (applyCallbacks i f s
                        (onEvent st (.pageComplete page text error confidence preview)).calls)
                      { st with processedPages := st.processedPages + 1 } rest).filter
                      (fun e => isPageComplete e.1)).map (fun e => e.2)).map
                      Session.percentage) := by
            simp [eventHistory, onEvent, isPageComplete]
          rw [hunfold]
          refine ⟨List.pairwise_cons.mpr ⟨?_, ihp⟩, ?_⟩
          · intro x hx
            obtain ⟨k, hk, hxk⟩ := ihk x hx
            rw [hhead, hxk]
            have hnq : (0 : ℚ) < n := by exact_mod_cast hn
            have hle : ((st.processedPages + 1 : ℕ) : ℚ) ≤ (k : ℚ) := by
              have : st.processedPages + 1 ≤ k := by
                simp at hk
                omega
              exact_mod_cast this
            exact shownPercentage_mono hnq (Nat.cast_nonneg _) hle
          · intro x hx
            rcases List.mem_cons.mp hx with h | h
            · exact ⟨st.processedPages + 1, Nat.lt_succ_self _, by rw [h, hhead]⟩
            · obtain ⟨k, hk, hxk⟩ := ihk x h
              refine ⟨k, ?_, hxk⟩
              simp at hk
              omega
      | processingComplete => simp [eventHistory, onEvent, isPageComplete]
      | error msg => simp [eventHistory, onEvent, isPageComplete]
      | unknown =>
          have := ih (applyCallbacks i f s (onEvent st .unknown).calls) st hst hrest
          simpa [eventHistory, onEvent, isPageComplete] using this
      | malformed =>
          have := ih (applyCallbacks i f s (onEvent st .malformed).calls) st hst hrest
          simpa [eventHistory, onEvent, isPageComplete] using this
      | socketError => simp [eventHistory, onEvent, isPageComplete]

/-- C10, as stated, fails. In scenario A the percentage after the four progress callbacks
is 0, 50, 0, 100: the `page_start` of page 2 takes it from 50 back to 0. When two pages
complete in reverse order the session's `processedPages` is 2, 2, 1, 1. -/
theorem c10_counterexample :
    (afterProgress 0 pdfFile {} scenarioA).map Session.percentage
      = [.fin 0, .fin 50, .fin 0, .fin 100] ∧
    JSNum.le (.fin 50) (.fin 0) = false ∧
    ¬ List.Chain' (fun a b => JSNum.le a b = true)
        ((afterProgress 0 pdfFile {} scenarioA).map Session.percentage) ∧
    (afterProgress 0 pdfFile {} reversedPages).map (fun x => x.processedPages) = [2, 2, 1, 1] ∧
    ¬ List.Chain' (fun a b : Int => a ≤ b)
        ((afterProgress 0 pdfFile {} reversedPages).map (fun x => x.processedPages)) := by
  have h1 : (afterProgress 0 pdfFile {} scenarioA).map Session.percentage
      = [.fin 0, .fin 50, .fin 0, .fin 100] := by decide!
  have h2 : (afterProgress 0 pdfFile {} reversedPages).map (fun x => x.processedPages)
      = [2, 2, 1, 1] := by decide!
  refine ⟨h1, by decide!, ?_, h2, ?_⟩
  · rw [h1]
    intro h
    have h50 := (List.chain'_cons.mp (List.chain'_cons.mp h).2).1
    simp only [JSNum.le, decide_eq_true_eq] at h50
    norm_num at h50
  · rw [h2]
    intro h
    have h21 := (List.chain'_cons.mp (List.chain'_cons.mp h).2).1
    simp at h21

/-- C10 (amended): within one file's streaming session the client's own count of completed
pages never decreases. The session's `processedPages` after each progress callback is the
page number carried by the event that fired it, so it never decreases when the page numbers
arrive in non-decreasing order. Every `page_start` callback sets the percentage to 0; in a
session that starts with a `page_start` and whose `page_start` events all announce the same
positive total, the percentage after the callback of a `page_complete` event is at least the
percentage after the callback of every earlier `page_complete` event. -/
theorem c10_progress_monotone_when (fileIndex : Nat) (file : FileJob) (s : Session) :
    (∀ (st : StreamState) (ev : WsEvent),
      st.processedPages ≤ (onEvent st ev).state.processedPages) ∧
    (∀ events : List WsEvent,
      (afterProgress fileIndex file s events).map (fun x => x.processedPages)
        = (received events).filterMap progressPage) ∧
    (∀ events : List WsEvent,
      List.Chain' (fun a b : Int => a ≤ b) ((received events).filterMap progressPage) →
      List.Chain' (fun a b : Int => a ≤ b)
        ((afterProgress fileIndex file s events).map (fun x => x.processedPages))) ∧
    (∀ (st : StreamState) (page total : Int),
      (applyCallbacks fileIndex file s (onEvent st (.pageStart page total)).calls).percentage
        = .fin 0) ∧
    (∀ (p : Int) (n : Nat) (rest : List WsEvent), 0 < n →
      (∀ ev ∈ rest, announces n ev = true) →
      List.Chain' (fun a b => JSNum.le a b = true)
        ((afterPageComplete fileIndex file s (.pageStart p n :: rest)).map
          Session.percentage)) := by
  have hpages : ∀ events : List WsEvent,
      (afterProgress fileIndex file s events).map (fun x => x.processedPages)
        = (received events).filterMap progressPage :=
    fun events => afterProgress_processedPages fileIndex file events s {}
  refine ⟨?_, hpages, ?_, ?_, ?_⟩
  · intro st ev
    cases ev <;> simp [onEvent]
  · intro events h
    rw [hpages]
    exact h
  · intro st page total
    simp only [onEvent, applyCallbacks, applyCallback, onProgress, Session.percentage,
      updateProgress, List.foldl, Option.getD]
    rw [JSNum.zero_div_hundred, JSNum.zero_mul_hundred, JSNum.round_zero]
  · intro p n rest hn hrest
    have hall : ∀ ev ∈ WsEvent.pageStart p n :: rest, announces n ev = true := by
      intro ev hev
      rcases List.mem_cons.mp hev with h | h
      · rw [h]
        simp [announces]
      · exact hrest ev h
    have hsorted :=
      (percentages_sorted fileIndex file n hn rest
        (applyCallbacks fileIndex file s (onEvent {} (.pageStart p n)).calls)
        { totalPages := n, processedPages := 0 } rfl hrest).1
    have hunfold :
        (afterPageComplete fileIndex file s (.pageStart p n :: rest)).map Session.percentage
          = (((eventHistory fileIndex file
                (applyCallbacks fileIndex file s (onEvent {} (.pageStart p n)).calls)
                { totalPages := n, processedPages := 0 } rest).filter
                (fun e => isPageComplete e.1)).map (fun e => e.2)).map Session.percentage := by
      simp [afterPageComplete, eventHistory, onEvent, isPageComplete]
    rw [hunfold]
    exact List.Pairwise.chain' hsorted

/-- C10 (amended) in scenario A: the percentages after the two `page_complete` events are
in non-decreasing order. -/
theorem c10_progress_monotone_when_witness :
    (0 < 2) ∧
    (∀ ev ∈ ([ .pageComplete 1 (some "A") none none none, .pageStart 2 2,
        .pageComplete 2 (some "B") none none none, .processingComplete ] : List WsEvent),
      announces 2 ev = true) ∧
    List.Chain' (fun a b => JSNum.le a b = true)
      ((afterPageComplete 0 pdfFile {} scenarioA).map Session.percentage) :=
  ⟨by decide, by decide,
   (c10_progress_monotone_when 0 pdfFile {}).2.2.2.2 1 2
      [ .pageComplete 1 (some "A") none none none, .pageStart 2 2,
        .pageComplete 2 (some "B") none none none, .processingComplete ]
      (by decide) (by decide)⟩

/-! ### Which total the progress callbacks report (C11) -/

theorem announcedTotal_append_pageStart (pre : List WsEvent) (page total : Int) :
    announcedTotal (pre ++ [.pageStart page total]) = total := by
  simp [announcedTotal, List.foldl_append]

theorem announcedTotal_append_pageComplete (pre : List WsEvent) (page : Int)
    (text error : Option String) (confidence : Option JSNum) (preview : Option String) :
    announcedTotal (pre ++ [.pageComplete page text error confidence preview])
      = announcedTotal pre := by
  simp [announcedTotal, List.foldl_append]

/-- C11, as stated, fails: after a first `page_start` announcing 2 pages, a `page_start`
announcing 4 makes the later progress callbacks report 4, and the callback of the first
`page_complete` computes 25 percent (1 of 4), not 50 (1 of 2). -/
theorem c11_counterexample :
    (processFileStream
      [.pageStart 1 2, .pageStart 2 4, .pageComplete 2 (some "B") none none none]).calls
      = [ .progress { totalPages := 2, currentPage := 1, percentage := .fin 0 },
          .progress { totalPages := 4, currentPage := 2, percentage := .fin 0 },
          .pageResult
            { pageNumber := 2, extractedText := some "B", error := none, confidence := none,
              preview := none },
          .progress { totalPages := 4, currentPage := 2, percentage := .fin 25 } ] ∧
    reportedTotals
      (processFileStream
        [.pageStart 1 2, .pageStart 2 4, .pageComplete 2 (some "B") none none none]).calls
      = [2, 4, 4] := by
  refine ⟨by decide!, by decide!⟩

/-- C11 (amended): within one file's streaming session every progress callback reports the
`total_pages` value of the latest `page_start` event handled so far (the client overwrites
its `totalPages` at every `page_start`), and the callback of a `page_complete` event computes
its percentage against that value, as `(count / totalPages) * 100` with the quotient and the
product each rounded to the nearest binary64 number; the callbacks report the first announced
`T` throughout when every `page_start` event of the session announces `T`. -/
theorem c11_latest_total_reported (pre : List WsEvent)
    (hpre : (processFileStream pre).outcome = none) :
    (∀ (ev : WsEvent) (q : StreamProgress),
      Callback.progress q ∈ (onEvent (processFileStream pre).final ev).calls →
      q.totalPages = announcedTotal (pre ++ [ev])) ∧
    (∀ (page : Int) (text error : Option String) (confidence : Option JSNum)
        (preview : Option String) (q : StreamProgress),
      Callback.progress q
        ∈ (onEvent (processFileStream pre).final
            (.pageComplete page text error confidence preview)).calls →
      q.percentage
        = JSNum.mul
            (JSNum.div (.fin ((pre.countP isPageComplete + 1 : ℕ) : ℚ))
              (.fin (announcedTotal pre)))
            (.fin 100)) ∧
    (∀ (T p : Int) (rest : List WsEvent) (ev : WsEvent),
      pre = .pageStart p T :: rest → (∀ e ∈ rest ++ [ev], announces T e = true) →
      announcedTotal (pre ++ [ev]) = T) := by
  have hun : ∀ ev ∈ pre, settles ev = false := unsettled_of_pending pre {} hpre
  have hcount : (processFileStream pre).final.processedPages = pre.countP isPageComplete := by
    have := (runStream_unsettled pre hun {}).2
    simpa [processFileStream] using this
  have htot := announcedTotal_eq pre hun
  refine ⟨?_, ?_, ?_⟩
  · intro ev q hq
    cases ev with
    | pageStart page total =>
        rw [announcedTotal_append_pageStart]
        simp [onEvent] at hq
        rw [hq]
    | pageComplete page text error confidence preview =>
        rw [announcedTotal_append_pageComplete, ← htot]
        simp [onEvent] at hq
        rw [hq]
    | processingComplete => simp [onEvent] at hq
    | error msg => simp [onEvent] at hq
    | unknown => simp [onEvent] at hq
    | malformed => simp [onEvent] at hq
    | socketError => simp [onEvent] at hq
  · intro page text error confidence preview q hq
    simp [onEvent] at hq
    rw [hq]
    simp [hcount, htot]
  · intro T p rest ev hshape hall
    subst hshape
    have hfold := foldl_total_const T (rest ++ [ev])
      (fun e he page total heq => by
        have := hall e he
        rw [heq] at this
        simpa [announces] using this)
    simpa [announcedTotal] using hfold

/-- C11 (amended) in scenario A: the callback of the last `page_complete` event reports the
2 pages that both `page_start` events announce. -/
theorem c11_latest_total_reported_witness :
    (processFileStream
      [.pageStart 1 2, .pageComplete 1 (some "A") none none none, .pageStart 2 2]).outcome
      = none ∧
    announcedTotal
      ([.pageStart 1 2, .pageComplete 1 (some "A") none none none, .pageStart 2 2]
        ++ [.pageComplete 2 (some "B") none none none]) = 2 :=
  ⟨by decide,
   (c11_latest_total_reported
      [.pageStart 1 2, .pageComplete 1 (some "A") none none none, .pageStart 2 2]
      (by decide)).2.2 2 1
      [.pageComplete 1 (some "A") none none none, .pageStart 2 2]
      (.pageComplete 2 (some "B") none none none) rfl (by decide)⟩

/-! ### Malformed messages (C12) -/

/-- C12: handling a message whose payload cannot be decoded invokes no callback, leaves
`processedPages` and `totalPages` as they are and settles nothing; a run in which such a
message arrives anywhere is the run without it: same callbacks, same outcome, same final
variables. -/
theorem c12_malformed_is_skipped :
    (∀ st : StreamState,
      (onEvent st .malformed).calls = [] ∧
      (onEvent st .malformed).state.processedPages = st.processedPages ∧
      (onEvent st .malformed).state.totalPages = st.totalPages ∧
      (onEvent st .malformed).settled = none) ∧
    (∀ (st : StreamState) (before after : List WsEvent),
      runStream st (before ++ .malformed :: after) = runStream st (before ++ after)) ∧
    (∀ before after : List WsEvent,
      processFileStream (before ++ .malformed :: after) = processFileStream (before ++ after)) := by
  have hrun : ∀ (before after : List WsEvent) (st : StreamState),
      runStream st (before ++ .malformed :: after) = runStream st (before ++ after) := by
    intro before after
    induction before with
    | nil =>
        intro st
        simp [runStream, onEvent]
    | cons ev rest ih =>
        intro st
        simp only [List.cons_append, runStream]
        cases (onEvent st ev).settled with
        | some o => rfl
        | none => simp [ih]
  refine ⟨?_, ?_, ?_⟩
  · intro st
    exact ⟨rfl, rfl, rfl, rfl⟩
  · intro st before after
    exact hrun before after st
  · intro before after
    exact hrun before after {}

/-! ### The fatal `error` event (C13) -/

/-- C13: in a session that has not settled, an `error` event carrying message `e` rejects
the promise of `processFileStream` with exactly `e` and fires no callback; when
`handleUpload` streams a PDF and that happens, the loop body goes on to invoke the batch
transport for the same file. -/
theorem c13_error_event_rejects_then_fallback (before after : List WsEvent) (e : String)
    (hpre : (processFileStream before).outcome = none) :
    (∀ st : StreamState,
      (onEvent st (.error e)).settled = some (.rejected (some e)) ∧
      (onEvent st (.error e)).calls = []) ∧
    (processFileStream (before ++ .error e :: after)).outcome = some (.rejected (some e)) ∧
    (processFileStream (before ++ .error e :: after)).calls = (processFileStream before).calls ∧
    (∀ (t : Transport) (file : FileJob) (fileIndex : Nat) (c : Ctx),
      file.type = "application/pdf" → c.state.useRealTimeProcessing = true →
      t.wsEvents = before ++ .error e :: after →
      (processEntry t file fileIndex c).ctx.trace
        = c.trace ++ [.streamCall fileIndex, .batchCall fileIndex]) := by
  have hun : ∀ ev ∈ before, settles ev = false := unsettled_of_pending before {} hpre
  obtain ⟨h1, h2, _⟩ := runStream_append before (.error e :: after) hun {}
  have hout : (processFileStream (before ++ .error e :: after)).outcome
      = some (.rejected (some e)) := by
    rw [processFileStream, h2]
    simp [runStream, onEvent]
  refine ⟨fun st => ⟨rfl, rfl⟩, hout, ?_, ?_⟩
  · rw [processFileStream, h1]
    simp [runStream, onEvent, processFileStream]
  · intro t file fileIndex c hpdf hrt hev
    rw [processEntry_stream t file fileIndex c hpdf hrt]
    simp only [streamBranch, hev, hout]
    rw [processWithStandardAPI_trace]
    simp

/-- C13 when the server fails after the first page of a PDF. -/
theorem c13_error_event_rejects_then_fallback_witness :
    (processFileStream [.pageStart 1 2, .pageComplete 1 (some "A") none none none]).outcome
      = none ∧
    (processFileStream
      ([.pageStart 1 2, .pageComplete 1 (some "A") none none none]
        ++ .error "out of memory" :: [])).outcome
      = some (.rejected (some "out of memory")) :=
  ⟨by decide,
   (c13_error_event_rejects_then_fallback
      [.pageStart 1 2, .pageComplete 1 (some "A") none none none] [] "out of memory"
      (by decide)).2.1⟩

/-! ### Selecting files and clearing (C14, C15) -/

/-- C14, as stated, fails: after a run that left `totalPages = 2`, `processedPages = 2` and a
percentage of 100, selecting new files keeps all three; and selecting files while a run is
in progress leaves the global processing flag set. -/
theorem c14_counterexample :
    (handleUpload twoPagesEach oneImage).returned = true ∧
    (handleFileChange [pdfFile] (handleUpload twoPagesEach oneImage).state).files = [pdfFile] ∧
    (handleFileChange [pdfFile] (handleUpload twoPagesEach oneImage).state).totalPages = 2 ∧
    (handleFileChange [pdfFile] (handleUpload twoPagesEach oneImage).state).processedPages = 2 ∧
    (handleFileChange [pdfFile]
      (handleUpload twoPagesEach oneImage).state).processingProgress.percentage
      = some (.fin 100) ∧
    (handleFileChange [pdfFile] { files := [imageFile], globalProcessing := true }
      ).globalProcessing = true := by
  refine ⟨by decide, by decide, by decide!, by decide!, by decide!, by decide⟩

/-- C14 (amended): for every session and every list of files, `handleFileChange` and
`handleDrop` replace the queue with exactly those files, empty the page results (and with
them the combined text), clear the current-file marker and the current file name and hide
the chat; they leave the progress record, the total pages, the processed pages, the global
processing flag and the stage as they were. -/
theorem c14_enqueue (s : Session) (files : List FileJob) :
    (handleFileChange files s).files = files ∧
    (handleFileChange files s).pageResults = [] ∧
    combinedText (handleFileChange files s).pageResults = "" ∧
    (handleFileChange files s).currentProcessing = none ∧
    (handleFileChange files s).currentFileName = "" ∧
    (handleFileChange files s).showChat = false ∧
    (handleFileChange files s).processingProgress = s.processingProgress ∧
    (handleFileChange files s).totalPages = s.totalPages ∧
    (handleFileChange files s).processedPages = s.processedPages ∧
    (handleFileChange files s).globalProcessing = s.globalProcessing ∧
    (handleFileChange files s).processingStage = s.processingStage ∧
    (handleFileChange files s).useRealTimeProcessing = s.useRealTimeProcessing ∧
    handleDrop files s = handleFileChange files s :=
  ⟨rfl, rfl, rfl, rfl, rfl, rfl, rfl, rfl, rfl, rfl, rfl, rfl, rfl⟩

/-- C15: from every session, clearing and then selecting no file, done twice, gives the same
session as doing it once, with `handleClearAll` as with `resetProcessing` alone; that session
has an empty queue, no page results, an empty progress record, zero totals and the global
processing flag off: it is the initial session, up to the real-time toggle, which neither
function writes. -/
theorem c15_reset_enqueue_idempotent (s : Session) :
    handleFileChange [] (handleClearAll (handleFileChange [] (handleClearAll s)))
      = handleFileChange [] (handleClearAll s) ∧
    handleFileChange [] (resetProcessing (handleFileChange [] (resetProcessing s)))
      = handleFileChange [] (resetProcessing s) ∧
    (handleFileChange [] (handleClearAll s)).files = [] ∧
    (handleFileChange [] (handleClearAll s)).pageResults = [] ∧
    (handleFileChange [] (handleClearAll s)).processingProgress = {} ∧
    (handleFileChange [] (handleClearAll s)).totalPages = 0 ∧
    (handleFileChange [] (handleClearAll s)).processedPages = 0 ∧
    (handleFileChange [] (handleClearAll s)).globalProcessing = false ∧
    handleFileChange [] (handleClearAll s)
      = { useRealTimeProcessing := s.useRealTimeProcessing } ∧
    handleFileChange [] (resetProcessing s)
      = { useRealTimeProcessing := s.useRealTimeProcessing } :=
  ⟨rfl, rfl, rfl, rfl, rfl, rfl, rfl, rfl, rfl, rfl⟩

/-! ### The start of a file (C16) -/

/-- C16, as stated, fails on a queue of two images: when the second file is marked as
current, the totals and the percentage left by the first file are still there, and when the
second file sends no progress event they are still there at the end of `handleUpload`. -/
theorem c16_counterexample :
    (markCurrent
      (processEntry (twoPagesEach 0) imageFile 0 { state := twoImages, trace := [] }).ctx.state
      { name := "next.png", type := "image/png" } 1).totalPages = 2 ∧
    (markCurrent
      (processEntry (twoPagesEach 0) imageFile 0 { state := twoImages, trace := [] }).ctx.state
      { name := "next.png", type := "image/png" } 1).processedPages = 2 ∧
    (markCurrent
      (processEntry (twoPagesEach 0) imageFile 0 { state := twoImages, trace := [] }).ctx.state
      { name := "next.png", type := "image/png" } 1).processingProgress.percentage
      = some (.fin 100) ∧
    (handleUpload thenSilent twoImages).trace
      = [.setGlobalProcessing true, .batchCall 0, .batchCall 1, .setGlobalProcessing false] ∧
    (handleUpload thenSilent twoImages).state.totalPages = 2 ∧
    (handleUpload thenSilent twoImages).state.processingProgress.percentage
      = some (.fin 100) := by
  refine ⟨by decide!, by decide!, by decide!, by decide, by decide!, by decide!⟩

/-- C16 (amended): when `handleUpload` begins processing a file it sets the current-file
marker, the current file name and the stage `processing`, and leaves the progress record,
the total pages and the processed pages exactly as the previous file left them; they change
only when a progress event of the new file arrives, so a file that sends none ends with the
session as it was marked. -/
theorem c16_begin_file_keeps_progress (t : Transport) (file : FileJob) (fileIndex : Nat)
    (c : Ctx) :
    (markCurrent c.state file fileIndex).currentProcessing = some (fileIndex, file.name) ∧
    (markCurrent c.state file fileIndex).currentFileName = file.name ∧
    (markCurrent c.state file fileIndex).processingStage = "processing" ∧
    (markCurrent c.state file fileIndex).processingProgress = c.state.processingProgress ∧
    (markCurrent c.state file fileIndex).totalPages = c.state.totalPages ∧
    (markCurrent c.state file fileIndex).processedPages = c.state.processedPages ∧
    (markCurrent c.state file fileIndex).pageResults = c.state.pageResults ∧
    (¬ (file.type = "application/pdf" ∧ c.state.useRealTimeProcessing = true) →
      t.uploadProgress = [] → t.batch = .ok [] →
      processEntry t file fileIndex c
        = .done
            { state := markCurrent c.state file fileIndex
              trace := c.trace ++ [.batchCall fileIndex] }) := by
  refine ⟨rfl, rfl, rfl, rfl, rfl, rfl, rfl, ?_⟩
  intro hbatch hup hok
  rw [processEntry_batch t file fileIndex c hbatch]
  simp [processWithStandardAPI, hup, hok]

/-- C16 (amended) for an image that sends nothing. -/
theorem c16_begin_file_keeps_progress_witness :
    ¬ (imageFile.type = "application/pdf" ∧ twoImages.useRealTimeProcessing = true) ∧
    (silent 1).uploadProgress = [] ∧
    processEntry (silent 1) imageFile 1 { state := twoImages, trace := [] }
      = .done { state := markCurrent twoImages imageFile 1, trace := [] ++ [.batchCall 1] } :=
  ⟨by decide, rfl,
   (c16_begin_file_keeps_progress (silent 1) imageFile 1 { state := twoImages, trace := [] }
      ).2.2.2.2.2.2.2 (by decide) rfl rfl⟩

/-! ### The end of `handleUpload` (C17) -/

/-- The batch call ends normally or throws, and never writes the real-time toggle. -/
theorem processWithStandardAPI_settles (t : Transport) (f : FileJob) (i : Nat) (c : Ctx) :
    (∀ c1, processWithStandardAPI t f i c ≠ .pending c1) ∧
    (processWithStandardAPI t f i c).ctx.state.useRealTimeProcessing
      = c.state.useRealTimeProcessing := by
  unfold processWithStandardAPI
  cases hb : t.batch with
  | error msg =>
      refine ⟨(fun c1 h => by cases h), ?_⟩
      simp [Outcome.ctx, uploadProgress_useRealTimeProcessing]
  | ok results =>
      by_cases hlen : 0 < results.length
      · refine ⟨(fun c1 h => by simp [hlen] at h), ?_⟩
        simp [hlen, Outcome.ctx, uploadProgress_useRealTimeProcessing]
      · refine ⟨(fun c1 h => by simp [hlen] at h), ?_⟩
        simp [hlen, Outcome.ctx, uploadProgress_useRealTimeProcessing]

/-- The loop body never writes the toggle, and it ends (normally or by throwing) unless it
streams the file and the stream never settles. -/
theorem processEntry_settles (t : Transport) (f : FileJob) (k : Nat) (c : Ctx) :
    (processEntry t f k c).ctx.state.useRealTimeProcessing = c.state.useRealTimeProcessing ∧
    ((f.type = "application/pdf" → c.state.useRealTimeProcessing = true →
        (processFileStream t.wsEvents).outcome ≠ none) →
      ∀ c1, processEntry t f k c ≠ .pending c1) := by
  by_cases h : f.type = "application/pdf" ∧ c.state.useRealTimeProcessing = true
  · rw [processEntry_stream t f k c h.1 h.2]
    simp only [streamBranch]
    cases ho : (processFileStream t.wsEvents).outcome with
    | none =>
        refine ⟨?_, fun hs => absurd rfl (hs h.1 h.2)⟩
        simp [Outcome.ctx, applyCallbacks_useRealTimeProcessing, markCurrent]
    | some o =>
        cases o with
        | resolved =>
            refine ⟨?_, (fun _ c1 hc => by cases hc)⟩
            simp [Outcome.ctx, applyCallbacks_useRealTimeProcessing, markCurrent]
        | rejected e =>
            refine ⟨?_, fun _ => (processWithStandardAPI_settles t f k _).1⟩
            rw [(processWithStandardAPI_settles t f k _).2]
            simp [applyCallbacks_useRealTimeProcessing, markCurrent]
  · rw [processEntry_batch t f k c h]
    refine ⟨?_, fun _ => (processWithStandardAPI_settles t f k _).1⟩
    rw [(processWithStandardAPI_settles t f k _).2]
    rfl

/-- The loop ends when the stream of every file it streams settles. -/
theorem processEntries_settles (net : Nat → Transport) (files : List FileJob) :
    ∀ (k : Nat) (c : Ctx),
      (∀ (j : Nat) (f : FileJob), files[j]? = some f → f.type = "application/pdf" →
        c.state.useRealTimeProcessing = true →
        (processFileStream (net (k + j)).wsEvents).outcome ≠ none) →
      ∀ c1, processEntries net k files c ≠ .pending c1 := by
  induction files with
  | nil =>
      intro k c _ c1 h
      simp [processEntries] at h
  | cons f rest ih =>
      intro k c hs c1
      obtain ⟨htoggle, hnp⟩ := processEntry_settles (net k) f k c
      have hhead : ∀ c2, processEntry (net k) f k c ≠ .pending c2 :=
        hnp (fun hpdf hrt => by simpa using hs 0 f (by simp) hpdf hrt)
      cases hout : processEntry (net k) f k c with
      | done c2 =>
          simp only [processEntries, hout]
          have ht2 : c2.state.useRealTimeProcessing = c.state.useRealTimeProcessing := by
            simpa [hout, Outcome.ctx] using htoggle
          refine ih (k + 1) c2 ?_ c1
          intro j g hg hpdf hrt
          have := hs (j + 1) g (by simpa using hg) hpdf (by rw [← ht2]; exact hrt)
          have harith : k + (j + 1) = k + 1 + j := by omega
          rw [harith] at this
          exact this
      | threw msg c2 =>
          simp [processEntries, hout]
      | pending c2 => exact absurd hout (hhead c2)

/-- C17: for a non-empty queue, `handleUpload` returns whenever the stream of every file it
streams settles (resolves or rejects), whatever the batch calls do; and whenever it returns,
the global processing flag is off, the stage is empty and the current-file marker is null. -/
theorem c17_flags_cleared_at_end (net : Nat → Transport) (s : Session) (hne : s.files ≠ []) :
    ((∀ (i : Nat) (f : FileJob), s.files[i]? = some f → f.type = "application/pdf" →
        s.useRealTimeProcessing = true →
        (processFileStream (net i).wsEvents).outcome ≠ none) →
      (handleUpload net s).returned = true) ∧
    ((handleUpload net s).returned = true →
      (handleUpload net s).state.globalProcessing = false ∧
      (handleUpload net s).state.processingStage = "" ∧
      (handleUpload net s).state.currentProcessing = none) := by
  have hlen : ¬ s.files.length = 0 := fun h => hne (List.length_eq_zero.mp h)
  constructor
  · intro hs
    have hnp := processEntries_settles net s.files 0
      { state := { s with globalProcessing := true, pageResults := [], showChat := false }
        trace := [.setGlobalProcessing true] }
      (fun j f hf hpdf hrt => by simpa using hs j f hf hpdf hrt)
    cases hout : processEntries net 0 s.files
        { state := { s with globalProcessing := true, pageResults := [], showChat := false }
          trace := [.setGlobalProcessing true] } with
    | done c => simp [handleUpload, hlen, hout]
    | threw msg c => simp [handleUpload, hlen, hout]
    | pending c => exact absurd hout (hnp c)
  · intro hret
    cases hout : processEntries net 0 s.files
        { state := { s with globalProcessing := true, pageResults := [], showChat := false }
          trace := [.setGlobalProcessing true] } with
    | done c => simp [handleUpload, hlen, hout, finish]
    | threw msg c => simp [handleUpload, hlen, hout, finish]
    | pending c => simp [handleUpload, hlen, hout] at hret

/-- C17 when the batch call of the first of two images fails. -/
theorem c17_flags_cleared_at_end_witness :
    twoImages.files ≠ [] ∧
    (handleUpload failFirst twoImages).returned = true ∧
    (handleUpload failFirst twoImages).state.globalProcessing = false ∧
    (handleUpload failFirst twoImages).state.processingStage = "" ∧
    (handleUpload failFirst twoImages).state.currentProcessing = none :=
  ⟨by decide,
   (c17_flags_cleared_at_end failFirst twoImages (by decide)).1
     (fun i f hf hpdf _ => by
       have hmem : f ∈ twoImages.files := List.getElem?_mem hf
       simp [twoImages, imageFile] at hmem
       rcases hmem with h | h <;> subst h <;> simp at hpdf),
   (c17_flags_cleared_at_end failFirst twoImages (by decide)).2 (by decide)⟩

/-! ### The error record (C19) -/

/-- C19 at a queue of two images whose second batch call fails: exactly one error record is
appended, with page number 1, empty text and a non-null error, but it carries `fileIndex` 0
and the name of the first file, while the failing file is the one at index 1. -/
theorem c19_error_record_names_first_file :
    (handleUpload failSecond twoImages).trace
      = [.setGlobalProcessing true, .batchCall 0, .batchCall 1, .setGlobalProcessing false] ∧
    (failSecond 1).batch = .error "Network error: Could not connect to OCR service" ∧
    (handleUpload failSecond twoImages).state.pageResults
      = batchRecords 0 imageFile 0 [batchPage 1 "A"]
        ++ [errorResult twoImages.files "Network error: Could not connect to OCR service"] ∧
    (errorResult twoImages.files "Network error: Could not connect to OCR service").fileIndex
      = 0 ∧
    (errorResult twoImages.files "Network error: Could not connect to OCR service").fileName
      = "scan.png" ∧
    twoImages.files[1]? = some { name := "next.png", type := "image/png" } ∧
    (errorResult twoImages.files "Network error: Could not connect to OCR service").pageNumber
      = 1 ∧
    (errorResult twoImages.files "Network error: Could not connect to OCR service").extractedText
      = "" ∧
    (errorResult twoImages.files "Network error: Could not connect to OCR service").error
      = some "Processing failed: Network error: Could not connect to OCR service" := by
  refine ⟨by decide, rfl, by decide, rfl, by decide, by decide, rfl, rfl, by decide⟩

/-! ### A queue handled by the batch transport (C20) -/

theorem batchRecords_tag (i : Nat) (f : FileJob) (ds : List PageData) :
    ∀ (start : Nat) (r : PageRecord), r ∈ batchRecords i f start ds →
      r.fileIndex = i ∧ r.fileName = f.name := by
  induction ds with
  | nil => intro start r hr; simp [batchRecords] at hr
  | cons d ds ih =>
      intro start r hr
      simp only [batchRecords, List.mem_cons] at hr
      rcases hr with h | h
      · rw [h]
        exact ⟨rfl, rfl⟩
      · exact ih (start + 1) r h

/-- Every record of the queue belongs to a queued file and carries its index and name. -/
theorem queueRecords_tag (pages : Nat → List PageData) (files : List FileJob) :
    ∀ (k : Nat) (r : PageRecord), r ∈ queueRecords pages k files →
      k ≤ r.fileIndex ∧ ∃ f, files[r.fileIndex - k]? = some f ∧ r.fileName = f.name := by
  induction files with
  | nil => intro k r hr; simp [queueRecords] at hr
  | cons f rest ih =>
      intro k r hr
      simp only [queueRecords, List.mem_append] at hr
      rcases hr with h | h
      · obtain ⟨h1, h2⟩ := batchRecords_tag k f (pages k) 0 r h
        refine ⟨by omega, f, ?_, h2⟩
        rw [h1]
        simp
      · obtain ⟨h1, g, hg, hname⟩ := ih (k + 1) r h
        refine ⟨by omega, g, ?_, hname⟩
        have harith : r.fileIndex - k = (r.fileIndex - (k + 1)) + 1 := by omega
        rw [harith]
        simpa using hg

/-- The file indices never go down along the records of the queue. -/
theorem queueRecords_sorted (pages : Nat → List PageData) (files : List FileJob) :
    ∀ k : Nat,
      List.Pairwise (fun a b : PageRecord => a.fileIndex ≤ b.fileIndex)
        (queueRecords pages k files) := by
  induction files with
  | nil => intro k; simp [queueRecords]
  | cons f rest ih =>
      intro k
      simp only [queueRecords]
      rw [List.pairwise_append]
      refine ⟨?_, ih (k + 1), ?_⟩
      · rw [List.pairwise_iff_forall_sublist]
        intro a b hab
        have ha := (batchRecords_tag k f (pages k) 0 a (hab.subset (by simp))).1
        have hb := (batchRecords_tag k f (pages k) 0 b (hab.subset (by simp))).1
        omega
      · intro a ha b hb
        have h1 := (batchRecords_tag k f (pages k) 0 a ha).1
        have h2 := (queueRecords_tag pages rest (k + 1) b hb).1
        omega

/-- The records of the file at a queue index, picked out of the records of the queue, are
that file's batch records in the order the service returned them. -/
theorem queueRecords_of_file (pages : Nat → List PageData) (files : List FileJob) :
    ∀ (k i : Nat) (f : FileJob), files[i]? = some f →
      (queueRecords pages k files).filter (fun r => decide (r.fileIndex = k + i))
        = batchRecords (k + i) f 0 (pages (k + i)) := by
  induction files with
  | nil => intro k i f hf; simp at hf
  | cons g rest ih =>
      intro k i f hf
      simp only [queueRecords, List.filter_append]
      cases i with
      | zero =>
          have hgf : g = f := by simpa using hf
          subst hgf
          have hhead : (batchRecords k g 0 (pages k)).filter
              (fun r => decide (r.fileIndex = k + 0)) = batchRecords k g 0 (pages k) := by
            rw [List.filter_eq_self]
            intro r hr
            simp [(batchRecords_tag k g (pages k) 0 r hr).1]
          have htail : (queueRecords pages (k + 1) rest).filter
              (fun r => decide (r.fileIndex = k + 0)) = [] := by
            rw [List.filter_eq_nil_iff]
            intro r hr
            have := (queueRecords_tag pages rest (k + 1) r hr).1
            simp
            omega
          rw [hhead, htail]
          simp
      | succ j =>
          have hfj : rest[j]? = some f := by simpa using hf
          have hhead : (batchRecords k g 0 (pages k)).filter
              (fun r => decide (r.fileIndex = k + (j + 1))) = [] := by
            rw [List.filter_eq_nil_iff]
            intro r hr
            have := (batchRecords_tag k g (pages k) 0 r hr).1
            simp
            omega
          have harith : k + (j + 1) = k + 1 + j := by omega
          rw [hhead, harith, ih (k + 1) j f hfj]
          simp

/-- A queue whose files all go to the batch transport, with every call succeeding, is
processed to the end and appends the records of the queue. -/
theorem processEntries_batch_ok (net : Nat → Transport) (pages : Nat → List PageData)
    (files : List FileJob) :
    ∀ (k : Nat) (c : Ctx),
      (∀ f ∈ files, ¬ (f.type = "application/pdf" ∧ c.state.useRealTimeProcessing = true)) →
      (∀ (j : Nat) (f : FileJob), files[j]? = some f →
        (net (k + j)).batch = .ok (pages (k + j))) →
      ∃ c1, processEntries net k files c = .done c1 ∧
        c1.state.pageResults = c.state.pageResults ++ queueRecords pages k files := by
  induction files with
  | nil =>
      intro k c _ _
      exact ⟨c, rfl, by simp [queueRecords]⟩
  | cons f rest ih =>
      intro k c hb hok
      have hbf := hb f (List.mem_cons_self f rest)
      have hokf : (net k).batch = .ok (pages k) := by simpa using hok 0 f (by simp)
      obtain ⟨c2, hc2, hres, _⟩ :=
        processWithStandardAPI_ok (net k) f k
          { c with state := markCurrent c.state f k } (pages k) hokf
      have hentry : processEntry (net k) f k c = .done c2 := by
        rw [processEntry_batch (net k) f k c hbf]
        exact hc2
      have htoggle : c2.state.useRealTimeProcessing = c.state.useRealTimeProcessing := by
        have := (processEntry_settles (net k) f k c).1
        simpa [hentry, Outcome.ctx] using this
      obtain ⟨c3, hc3, hres3⟩ := ih (k + 1) c2
        (fun g hg => by
          rw [htoggle]
          exact hb g (List.mem_cons_of_mem f hg))
        (fun j g hg => by
          have := hok (j + 1) g (by simpa using hg)
          have harith : k + (j + 1) = k + 1 + j := by omega
          rw [harith] at this
          exact this)
      refine ⟨c3, ?_, ?_⟩
      · simp only [processEntries, hentry]
        exact hc3
      · rw [hres3, hres]
        simp [queueRecords, markCurrent]

/-- The records of one batch call are the records of the returned pages, page by page. -/
theorem batchRecords_eq_enum (i : Nat) (f : FileJob) (ds : List PageData) :
    ∀ start : Nat,
      batchRecords i f start ds
        = (ds.enumFrom start).map (fun p => batchRecord i f p.1 p.2) := by
  induction ds with
  | nil => intro start; rfl
  | cons d ds ih =>
      intro start
      simp [batchRecords, List.enumFrom, ih]

/-- The records of a queue are the records of its files, file by file. -/
theorem queueRecords_eq_join (pages : Nat → List PageData) (files : List FileJob) :
    ∀ k : Nat,
      queueRecords pages k files
        = ((files.enumFrom k).map
            (fun e => (pages e.1).enum.map (fun p => batchRecord e.1 e.2 p.1 p.2))).flatten := by
  induction files with
  | nil => intro k; rfl
  | cons f rest ih =>
      intro k
      simp [queueRecords, List.enumFrom, ih, batchRecords_eq_enum, List.enum]

/-- C20, as stated, fails for the empty queue: every file of the queue goes to the batch
transport and every call succeeds, vacuously, yet `handleUpload` returns at once and the page
results the session held before are still there, where the concatenation of the files'
records is empty. -/
theorem c20_counterexample :
    staleResults.files = [] ∧
    (∀ f ∈ staleResults.files,
      ¬ (f.type = "application/pdf" ∧ staleResults.useRealTimeProcessing = true)) ∧
    (∀ (i : Nat) (f : FileJob), staleResults.files[i]? = some f →
      (silent i).batch = .ok []) ∧
    (handleUpload silent staleResults).returned = true ∧
    (handleUpload silent staleResults).state.pageResults = [blankPage] ∧
    (staleResults.files.enum.map
      (fun e => (([] : List PageData).enum).map
        (fun p => batchRecord e.1 e.2 p.1 p.2))).flatten = [] ∧
    (handleUpload silent staleResults).state.pageResults
      ≠ (staleResults.files.enum.map
          (fun e => (([] : List PageData).enum).map
            (fun p => batchRecord e.1 e.2 p.1 p.2))).flatten := by
  refine ⟨rfl, ?_, ?_, by decide, by decide, rfl, by decide⟩
  · intro f hf
    simp [staleResults] at hf
  · intro i f hf
    rfl

/-- C20 (amended): for a queue that is not empty, when every queued file goes to the batch
transport and every batch call succeeds, `handleUpload` returns and, whatever page results the
session held before, the page results are exactly the records of the first file, then those
of the second, and so on, each file's records in the order the service returned its pages.
Each record carries the index and the name of its file, the file indices never go down along
the list, the records carrying a given index are that file's records, and the `j`-th of them
holds the text of the `j`-th page the service returned for that file. -/
theorem c20_batch_results_in_queue_order (net : Nat → Transport) (s : Session)
    (pages : Nat → List PageData)
    (hne : s.files ≠ [])
    (hbatch : ∀ f ∈ s.files, ¬ (f.type = "application/pdf" ∧ s.useRealTimeProcessing = true))
    (hok : ∀ (i : Nat) (f : FileJob), s.files[i]? = some f → (net i).batch = .ok (pages i)) :
    (handleUpload net s).returned = true ∧
    (handleUpload net s).state.pageResults
      = (s.files.enum.map
          (fun e => (pages e.1).enum.map (fun p => batchRecord e.1 e.2 p.1 p.2))).flatten ∧
    (∀ r ∈ (handleUpload net s).state.pageResults,
      ∃ f, s.files[r.fileIndex]? = some f ∧ r.fileName = f.name) ∧
    List.Pairwise (fun a b : PageRecord => a.fileIndex ≤ b.fileIndex)
      (handleUpload net s).state.pageResults ∧
    (∀ (i : Nat) (f : FileJob), s.files[i]? = some f →
      (handleUpload net s).state.pageResults.filter (fun r => decide (r.fileIndex = i))
        = (pages i).enum.map (fun p => batchRecord i f p.1 p.2)) ∧
    (∀ (i j : Nat) (f : FileJob) (d : PageData) (t : String),
      s.files[i]? = some f → (pages i)[j]? = some d → d.text = some t → t ≠ "" →
      ∃ r,
        ((handleUpload net s).state.pageResults.filter
          (fun r => decide (r.fileIndex = i)))[j]? = some r ∧
        r.extractedText = t ∧ r.fileIndex = i ∧ r.fileName = f.name) := by
  have hlen : ¬ s.files.length = 0 := fun h => hne (List.length_eq_zero.mp h)
  obtain ⟨c1, hc1, hpr⟩ := processEntries_batch_ok net pages s.files 0
    { state := { s with globalProcessing := true, pageResults := [], showChat := false }
      trace := [.setGlobalProcessing true] }
    hbatch (fun j f hf => by simpa using hok j f hf)
  have hres : (handleUpload net s).state.pageResults = queueRecords pages 0 s.files := by
    simp [handleUpload, hlen, hc1, finish, hpr]
  have hfilter : ∀ (i : Nat) (f : FileJob), s.files[i]? = some f →
      (handleUpload net s).state.pageResults.filter (fun r => decide (r.fileIndex = i))
        = (pages i).enum.map (fun p => batchRecord i f p.1 p.2) := by
    intro i f hf
    rw [hres]
    have := queueRecords_of_file pages s.files 0 i f hf
    simpa [batchRecords_eq_enum, List.enum] using this
  refine ⟨?_, ?_, ?_, ?_, hfilter, ?_⟩
  · simp [handleUpload, hlen, hc1, finish]
  · rw [hres, queueRecords_eq_join]
    rfl
  · intro r hr
    rw [hres] at hr
    obtain ⟨_, f, hf, hname⟩ := queueRecords_tag pages s.files 0 r hr
    exact ⟨f, by simpa using hf, hname⟩
  · rw [hres]
    exact queueRecords_sorted pages s.files 0
  · intro i j f d t hf hd ht hte
    rw [hfilter i f hf]
    refine ⟨batchRecord i f j d, ?_, ?_, rfl, rfl⟩
    · simp [List.enum, List.getElem?_enumFrom, hd]
    · simp [batchRecord, ht, strOrNull, hte]

/-- C20 (amended) on two images whose pages carry distinct texts: the four texts come out
file by file, page by page. -/
theorem c20_batch_results_in_queue_order_witness :
    twoImages.files ≠ [] ∧
    (handleUpload distinctPages twoImages).state.pageResults.map
        (fun r => (r.fileIndex, r.fileName, r.pageNumber, r.extractedText))
      = [ (0, "scan.png", 1, "0a"), (0, "scan.png", 2, "0b"),
          (1, "next.png", 1, "1a"), (1, "next.png", 2, "1b") ] ∧
    (handleUpload distinctPages twoImages).state.pageResults
      = (twoImages.files.enum.map
          (fun e => ((distinctPages e.1).batch.toOption.getD []).enum.map
            (fun p => batchRecord e.1 e.2 p.1 p.2))).flatten :=
  ⟨by decide, by decide,
   (c20_batch_results_in_queue_order distinctPages twoImages
      (fun i => (distinctPages i).batch.toOption.getD []) (by decide)
      (fun f hf => by
        simp [twoImages, imageFile] at hf
        rcases hf with h | h <;> subst h <;> simp)
      (fun _ _ _ => rfl)).2.1⟩

/-! ### The combined text (C18) -/

theorem intercalate_go_append (sep : String) (rest : List String) :
    ∀ acc x : String,
      String.intercalate.go (acc ++ x) sep rest = acc ++ String.intercalate.go x sep rest := by
  induction rest with
  | nil => intro acc x; rfl
  | cons y ys ih =>
      intro acc x
      simp only [String.intercalate.go]
      rw [String.append_assoc acc x sep, String.append_assoc acc (x ++ sep) y, ih acc]

/-- The method `join` puts the separator between consecutive elements. -/
theorem jsJoin_eq_intercalate (sep : String) (l : List String) :
    jsJoin sep l = String.intercalate sep l := by
  induction l with
  | nil => rfl
  | cons x rest ih =>
      cases rest with
      | nil => rfl
      | cons y ys =>
          have hy : jsJoin sep (y :: ys) = String.intercalate.go y sep ys := by
            rw [ih]
            rfl
          simp only [jsJoin, String.intercalate, String.intercalate.go]
          rw [hy, String.append_assoc x sep y, intercalate_go_append sep ys x (sep ++ y),
            intercalate_go_append sep ys sep y, String.append_assoc]

/-- C18, as stated, fails on a page without an error whose text is empty: it contributes no
section to the combined text, where the claim gives it the section made of its header. -/
theorem c18_counterexample :
    hasError blankPage = false ∧
    combinedText [blankPage] = "" ∧
    combinedTextOfErrorFree [blankPage] = "Page 1 (doc.pdf):\n" ∧
    combinedText [blankPage] ≠ combinedTextOfErrorFree [blankPage] := by
  refine ⟨by decide, by decide, by decide, by decide⟩

/-- C18 (amended): the combined text is the concatenation, in append order, of one section
per record that has no error and a non-empty text, each section being the header
`Page <page number> (<file name>):`, a newline and the record's text, with the separator
between consecutive sections; a record with an error or with an empty text contributes no
section, and every other record contributes exactly one. -/
theorem c18_combined_text (pageResults : List PageRecord) :
    combinedText pageResults
      = String.intercalate "\n\n---\n\n" ((pageResults.filter keptInText).map pageSection) ∧
    ((pageResults.filter keptInText).map pageSection).length
      = pageResults.countP keptInText ∧
    (∀ r : PageRecord,
      keptInText r = true ↔ (hasError r = false ∧ r.extractedText ≠ "")) ∧
    (∀ r : PageRecord,
      pageSection r
        = "Page " ++ toString r.pageNumber ++ " (" ++ r.fileName ++ "):\n" ++ r.extractedText) ∧
    (∀ (before after : List PageRecord) (r : PageRecord), keptInText r = false →
      combinedText (before ++ r :: after) = combinedText (before ++ after)) ∧
    (∀ (before after : List PageRecord) (r : PageRecord), keptInText r = true →
      ((before ++ r :: after).filter keptInText).map pageSection
        = (before.filter keptInText).map pageSection
          ++ pageSection r :: (after.filter keptInText).map pageSection) := by
  refine ⟨?_, ?_, ?_, fun r => rfl, ?_, ?_⟩
  · rw [combinedText, jsJoin_eq_intercalate]
  · rw [List.length_map, List.countP_eq_length_filter]
  · intro r
    simp [keptInText]
  · intro before after r hr
    simp [combinedText, List.filter_append, List.filter_cons, hr]
  · intro before after r hr
    simp [List.filter_append, List.filter_cons, hr]

/-- C18 (amended) on a page with text, a blank page and a failed page. -/
theorem c18_combined_text_witness :
    keptInText blankPage = false ∧
    combinedText
      ([streamRecord 0 pdfFile
          { pageNumber := 1, extractedText := some "A", error := none, confidence := none,
            preview := none }]
        ++ blankPage :: [errorResult [pdfFile] "boom"])
      = combinedText
          ([streamRecord 0 pdfFile
              { pageNumber := 1, extractedText := some "A", error := none, confidence := none,
                preview := none }]
            ++ [errorResult [pdfFile] "boom"]) :=
  ⟨by decide,
   (c18_combined_text []).2.2.2.2.1
      [streamRecord 0 pdfFile
        { pageNumber := 1, extractedText := some "A", error := none, confidence := none,
          preview := none }]
      [errorResult [pdfFile] "boom"] blankPage (by decide)⟩

/-! ### Failures of the batch client (C21, C22) -/

theorem rethrown_of_ne (m : String) (h : m ≠ "") : rethrown m = m := by
  simp [rethrown, h]

theorem startsWith_append (p s : String) : startsWith p (p ++ s) = true := by
  unfold startsWith
  rw [List.isPrefixOf_iff_prefix, String.toList, String.toList, String.data_append]
  exact List.prefix_append _ _

/-- C21, as stated, fails: for a success status with a body that is not JSON, `processFile`
throws an error with the message `Processing failed`, which is exactly what it throws for the
well-formed answers `{success: false}` and `{success: false, error: "Processing failed"}`. -/
theorem c21_counterexample :
    processFile v8TypeError (.response (.unparsed "<html>502 Bad Gateway</html>"))
      = .error "Processing failed" ∧
    processFile v8TypeError (.response (.answer false none none))
      = processFile v8TypeError (.response (.unparsed "<html>502 Bad Gateway</html>")) ∧
    processFile v8TypeError (.response (.answer false (some "Processing failed") none))
      = processFile v8TypeError (.response (.unparsed "<html>502 Bad Gateway</html>")) := by
  refine ⟨?_, ?_, ?_⟩ <;> simp [processFile, rethrown, strOrNull]

/-- C21 (amended): when the service answers with a success status and a body that is not an
object with a truthy `success` (for instance text that is not JSON), `processFile` fails
with the message `Processing failed`, the same failure as for a well-formed `{success:
false}` answer without an error message; that message differs from the connectivity message
and does not start with `Server error:`. A body with a truthy `success` whose `pages` cannot
be mapped fails with the message of the engine's `TypeError`. -/
theorem c21_unparsed_body_fails (typeError : String) :
    (∀ raw : String,
      processFile typeError (.response (.unparsed raw)) = .error "Processing failed") ∧
    (∀ pages : Option (List ServicePage),
      processFile typeError (.response (.answer false none pages))
        = .error "Processing failed") ∧
    (∀ error : Option String, typeError ≠ "" →
      processFile typeError (.response (.answer true error none)) = .error typeError) ∧
    processFile typeError .noResponse
      = .error "Network error: Could not connect to OCR service" ∧
    ("Processing failed" : String) ≠ "Network error: Could not connect to OCR service" ∧
    startsWith "Server error:" "Processing failed" = false ∧
    startsWith "Network error:" "Processing failed" = false := by
  refine ⟨fun raw => ?_, fun pages => ?_, fun error h => ?_, rfl, by decide, by decide,
    by decide⟩
  · simp [processFile, rethrown]
  · simp [processFile, rethrown, strOrNull]
  · simp [processFile, rethrown_of_ne typeError h]

/-- C21 (amended) with the wording of V8 for the missing `pages`. -/
theorem c21_unparsed_body_fails_witness :
    v8TypeError ≠ "" ∧
    processFile v8TypeError (.response (.answer true none none)) = .error v8TypeError :=
  ⟨by decide, (c21_unparsed_body_fails v8TypeError).2.2.1 none (by decide)⟩

/-- C22, as stated, fails for an answer with a success status and the body `{success: false,
error: e}`: `processFile` throws an error whose message is `e` itself, without the words
`Server error:`. -/
theorem c22_counterexample :
    processFile v8TypeError (.response (.answer false (some "Unsupported file type") none))
      = .error "Unsupported file type" ∧
    startsWith "Server error:" "Unsupported file type" = false := by
  refine ⟨?_, by decide⟩
  simp [processFile, rethrown, strOrNull]

/-- C22 (amended): for an answer with another status than success and the body `{error:
e}`, `processFile` fails with the message `Server error: <status> - e`; for an answer with a
success status and the body `{success: false, error: e}` it fails with the message `e`
itself; when no answer arrives it fails with `Network error: Could not connect to OCR
service`. -/
theorem c22_failure_messages (typeError : String) :
    (∀ (status : Nat) (e : String), e ≠ "" →
      processFile typeError (.badStatus status (some e))
        = .error ("Server error: " ++ toString status ++ " - " ++ e) ∧
      startsWith "Server error:" ("Server error: " ++ toString status ++ " - " ++ e) = true) ∧
    (∀ (e : String) (pages : Option (List ServicePage)), e ≠ "" →
      processFile typeError (.response (.answer false (some e) pages)) = .error e) ∧
    processFile typeError .noResponse
      = .error "Network error: Could not connect to OCR service" := by
  refine ⟨fun status e he => ⟨?_, ?_⟩, fun e pages he => ?_, rfl⟩
  · simp [processFile, strOrNull, he]
  · have h : ("Server error: " ++ toString status ++ " - " ++ e : String)
        = "Server error:" ++ (" " ++ toString status ++ " - " ++ e) := by
      simp only [String.append_assoc]
      rfl
    rw [h]
    exact startsWith_append _ _
  · simp [processFile, strOrNull, he, rethrown]

/-- C22 (amended) for a 500 answer and for a refused file. -/
theorem c22_failure_messages_witness :
    ("Unsupported file type" : String) ≠ "" ∧
    processFile v8TypeError (.badStatus 500 (some "Unsupported file type"))
      = .error ("Server error: " ++ toString 500 ++ " - " ++ "Unsupported file type") ∧
    processFile v8TypeError (.response (.answer false (some "Unsupported file type") none))
      = .error "Unsupported file type" :=
  ⟨by decide,
   ((c22_failure_messages v8TypeError).1 500 "Unsupported file type" (by decide)).1,
   (c22_failure_messages v8TypeError).2.1 "Unsupported file type" none (by decide)⟩

/-! ### Token counts (C23, C24) -/

theorem spaceRuns_true_cons (d : Char) (ds : List Char) :
    spaceRuns true (d :: ds) + (if isJsSpace d then 1 else 0) = spaceRuns false (d :: ds) := by
  by_cases h : isJsSpace d = true
  · simp [spaceRuns, h]
    omega
  · simp [spaceRuns, h]

theorem wordRuns_true_cons (d : Char) (ds : List Char) :
    wordRuns true (d :: ds) + (if isJsSpace d then 0 else 1) = wordRuns false (d :: ds) := by
  by_cases h : isJsSpace d = true
  · simp [wordRuns, h]
  · simp [wordRuns, h]
    omega

/-- On a non-empty text, the separators and the tokens alternate: the length of the split
is the number of tokens, plus one for leading and one for trailing whitespace. -/
theorem spaceRuns_wordRuns (cs : List Char) :
    ∀ c : Char,
      spaceRuns false (c :: cs) + 1
        = wordRuns false (c :: cs) + leadingSpace (c :: cs) + trailingSpace (c :: cs) := by
  induction cs with
  | nil =>
      intro c
      by_cases h : isJsSpace c = true
      · simp [spaceRuns, wordRuns, leadingSpace, trailingSpace, h]
      · simp [spaceRuns, wordRuns, leadingSpace, trailingSpace, h]
  | cons d ds ih =>
      intro c
      have hs := spaceRuns_true_cons d ds
      have hw := wordRuns_true_cons d ds
      have hi := ih d
      have htrail : trailingSpace (c :: d :: ds) = trailingSpace (d :: ds) := by
        simp [trailingSpace, List.getLast?_cons_cons]
      have hlead : leadingSpace (d :: ds) = if isJsSpace d then 1 else 0 := by
        simp [leadingSpace]
      rw [htrail]
      rw [hlead] at hi
      by_cases hc : isJsSpace c = true
      · have h1 : spaceRuns false (c :: d :: ds) = 1 + spaceRuns true (d :: ds) := by
          simp [spaceRuns, hc]
        have h2 : wordRuns false (c :: d :: ds) = wordRuns false (d :: ds) := by
          simp [wordRuns, hc]
        have h3 : leadingSpace (c :: d :: ds) = 1 := by simp [leadingSpace, hc]
        rw [h1, h2, h3]
        by_cases hd : isJsSpace d = true
        · simp [hd] at hs hw hi
          omega
        · simp [hd] at hs hw hi
          omega
      · have h1 : spaceRuns false (c :: d :: ds) = spaceRuns false (d :: ds) := by
          simp [spaceRuns, hc]
        have h2 : wordRuns false (c :: d :: ds) = 1 + wordRuns true (d :: ds) := by
          simp [wordRuns, hc]
        have h3 : leadingSpace (c :: d :: ds) = 0 := by simp [leadingSpace, hc]
        rw [h1, h2, h3]
        by_cases hd : isJsSpace d = true
        · simp [hd] at hs hw hi
          omega
        · simp [hd] at hs hw hi
          omega

theorem splitLength_eq (t : String) (ht : t ≠ "") :
    splitLength t = wordCount t + leadingSpace t.toList + trailingSpace t.toList := by
  unfold splitLength wordCount
  cases hl : t.toList with
  | nil =>
      exfalso
      apply ht
      cases t with
      | mk data =>
          simp [String.toList] at hl
          subst hl
          rfl
  | cons c cs => exact spaceRuns_wordRuns cs c

/-- The number of pieces of `split(/\s+/)` is one more than the number of separators. -/
theorem splitPieces_length (cs : List Char) :
    ∀ (piece : List Char) (inRun : Bool),
      (splitPieces piece inRun cs).length = spaceRuns inRun cs + 1 := by
  induction cs with
  | nil => intro piece inRun; rfl
  | cons c cs ih =>
      intro piece inRun
      by_cases hc : isJsSpace c = true
      · cases inRun
        · simp [splitPieces, spaceRuns, hc, ih]
          omega
        · simp [splitPieces, spaceRuns, hc, ih]
      · simp [splitPieces, spaceRuns, hc, ih]

theorem splitLength_eq_pieces (t : String) :
    splitLength t = (splitPieces [] false t.toList).length := by
  rw [splitPieces_length]
  rfl

/-- For a page with a non-empty text `t` and no count from the service, the record's
`tokenCount` is `t.split(/\s+/).length`: the number of whitespace-delimited tokens of `t`,
plus one when `t` starts with whitespace and plus one when it ends with whitespace. -/
theorem batchRecord_tokenCount :
    (∀ (fileIndex pageIndex : Nat) (file : FileJob) (sp : ServicePage) (t : String),
      sp.text = some t → t ≠ "" →
      (batchRecord fileIndex file pageIndex (servicePageData sp)).tokenCount = splitLength t) ∧
    (∀ t : String, t ≠ "" →
      splitLength t = wordCount t + leadingSpace t.toList + trailingSpace t.toList) ∧
    (∀ t : String, t ≠ "" → leadingSpace t.toList = 0 → trailingSpace t.toList = 0 →
      splitLength t = wordCount t) := by
  refine ⟨?_, splitLength_eq, ?_⟩
  · intro fileIndex pageIndex file sp t hsp ht
    have hpos : splitLength t ≠ 0 := by
      unfold splitLength
      omega
    simp [batchRecord, servicePageData, hsp, strOrNull, ht, hpos]
  · intro t ht hlead htrail
    rw [splitLength_eq t ht, hlead, htrail]
    rfl

/-- C23 at pages the batch transport returns without a token count from the service. For the
empty text `processFile` sets `tokenCount: 0`, and `processWithStandardAPI` replaces that `0`
by `''.split(/\s+/).length`, so the record's `tokenCount` is 1, where the text has no token.
For `" a"` (one token) it is 2, for `"hello world\n"` (two tokens) it is 3 and for `" "` (no
token) it is 2. The count `PageResult` shows for the same texts, which trims the text and
drops the empty pieces, is the number of tokens: 0, 1, 2 and 0. For `"hello world"` both
counts are 2. -/
theorem c23_token_count_counts_empty_pieces :
    (servicePageData { page := some 1, text := some "", error := none, preview := none }
      ).tokenCount = some 0 ∧
    (batchRecord 0 imageFile 0
      (servicePageData { page := some 1, text := some "", error := none, preview := none })
      ).tokenCount = 1 ∧
    wordCount "" = 0 ∧ shownWords "" = 0 ∧
    (batchRecord 0 imageFile 0
      (servicePageData { page := some 1, text := some " a", error := none, preview := none })
      ).tokenCount = 2 ∧
    wordCount " a" = 1 ∧ shownWords " a" = 1 ∧
    (batchRecord 0 imageFile 0
      (servicePageData
        { page := some 1, text := some "hello world\n", error := none, preview := none })
      ).tokenCount = 3 ∧
    wordCount "hello world\n" = 2 ∧ shownWords "hello world\n" = 2 ∧
    (batchRecord 0 imageFile 0
      (servicePageData { page := some 1, text := some " ", error := none, preview := none })
      ).tokenCount = 2 ∧
    wordCount " " = 0 ∧ shownWords " " = 0 ∧
    (batchRecord 0 imageFile 0
      (servicePageData
        { page := some 1, text := some "hello world", error := none, preview := none })
      ).tokenCount = 2 ∧
    wordCount "hello world" = 2 ∧ shownWords "hello world" = 2 := by
  decide

/-- C24 at a streamed page with the text `"hello world"`: the appended record's `tokenCount`
is 0, where the text has two whitespace-delimited tokens; for every streamed page the record
is built with `tokenCount` 0, as the payload of the streaming client has no `tokenCount`. -/
theorem c24_streamed_token_count_is_zero :
    ((applyCallbacks 0 pdfFile {}
      (processFileStream
        [.pageStart 1 1, .pageComplete 1 (some "hello world") none none none,
          .processingComplete]).calls).pageResults.map (fun r => (r.extractedText, r.tokenCount)))
      = [("hello world", 0)] ∧
    wordCount "hello world" = 2 ∧
    (∀ (fileIndex : Nat) (file : FileJob) (p : StreamPage),
      (streamRecord fileIndex file p).tokenCount = 0) := by
  refine ⟨by decide, by decide, fun _ _ _ => rfl⟩

/-! ### A file without pages (C25) -/

/-- The upload-progress callback leaves the totals alone. -/
theorem uploadProgress_totals (ps : List JSNum) :
    ∀ s : Session,
      (ps.foldl
        (fun s progress =>
          { s with processingProgress := updateProgress s.processingProgress progress (.fin 100) })
        s).totalPages = s.totalPages ∧
      (ps.foldl
        (fun s progress =>
          { s with processingProgress := updateProgress s.processingProgress progress (.fin 100) })
        s).processedPages = s.processedPages := by
  induction ps with
  | nil => intro s; exact ⟨rfl, rfl⟩
  | cons p ps ih =>
      intro s
      rw [List.foldl_cons]
      exact ih _

/-- After the last upload-progress event the progress record holds that event's value. -/
theorem uploadProgress_last (ps : List JSNum) (p : JSNum) (s : Session) :
    ((ps ++ [p]).foldl
      (fun s progress =>
        { s with processingProgress := updateProgress s.processingProgress progress (.fin 100) })
      s).processingProgress
      = updateProgress
          (ps.foldl
            (fun s progress =>
              { s with
                processingProgress := updateProgress s.processingProgress progress (.fin 100) })
            s).processingProgress
          p (.fin 100) := by
  rw [List.foldl_append]
  rfl

/-- C25, as stated, fails on a queue of two images: the first yields two pages, the second
uploads to the end and gets an empty page list; after it the total pages are still 2 and the
percentage is 100, not 0. -/
theorem c25_counterexample :
    (handleUpload thenNoPages twoImages).trace
      = [.setGlobalProcessing true, .batchCall 0, .batchCall 1, .setGlobalProcessing false] ∧
    (thenNoPages 1).uploadProgress = [.fin 50, .fin 100] ∧
    (∃ c1, processWithStandardAPI (thenNoPages 1) imageFile 1 { state := {}, trace := [] }
      = .done c1 ∧ c1.state.pageResults = []) ∧
    (handleUpload thenNoPages twoImages).state.totalPages = 2 ∧
    (handleUpload thenNoPages twoImages).state.processedPages = 2 ∧
    (handleUpload thenNoPages twoImages).state.processingProgress.percentage
      = some (.fin 100) := by
  refine ⟨by decide, by decide!, ⟨_, rfl, rfl⟩, by decide!, by decide!, by decide!⟩

/-- C25 (amended): for every file whose batch call succeeds with an empty page list,
`processWithStandardAPI` ends normally, appends no record and leaves the total pages and
the processed pages as they were before the call; the progress record is written by the
upload-progress callback only: it is unchanged when no upload-progress event fires, and
otherwise holds the last reported value `p` as `current`, 100 as `total` and
`Math.round(p / 100 * 100)` as percentage. -/
theorem c25_empty_page_list_keeps_totals (t : Transport) (file : FileJob) (fileIndex : Nat)
    (c : Ctx) (hb : t.batch = .ok []) :
    ∃ c1, processWithStandardAPI t file fileIndex c = .done c1 ∧
      c1.state.pageResults = c.state.pageResults ∧
      c1.state.totalPages = c.state.totalPages ∧
      c1.state.processedPages = c.state.processedPages ∧
      (t.uploadProgress = [] → c1.state.processingProgress = c.state.processingProgress) ∧
      (∀ (ps : List JSNum) (p : JSNum), t.uploadProgress = ps ++ [p] →
        c1.state.processingProgress.current = some p ∧
        c1.state.processingProgress.total = some (.fin 100) ∧
        c1.state.processingProgress.percentage
          = some (JSNum.round (JSNum.mul (JSNum.div p (.fin 100)) (.fin 100)))) := by
  refine ⟨{ state :=
              t.uploadProgress.foldl
                (fun s progress =>
                  { s with
                    processingProgress :=
                      updateProgress s.processingProgress progress (.fin 100) })
                c.state
            trace := c.trace ++ [.batchCall fileIndex] }, ?_, ?_, ?_, ?_, ?_, ?_⟩
  · simp [processWithStandardAPI, hb]
  · exact uploadProgress_pageResults t.uploadProgress c.state
  · exact (uploadProgress_totals t.uploadProgress c.state).1
  · exact (uploadProgress_totals t.uploadProgress c.state).2
  · intro hnil
    simp [hnil]
  · intro ps p hps
    simp only [hps]
    rw [uploadProgress_last]
    exact ⟨rfl, rfl, rfl⟩

/-- C25 (amended) for an image that gets an empty page list after the totals of another
file were recorded. -/
theorem c25_empty_page_list_keeps_totals_witness :
    (∃ c1, processWithStandardAPI (silent 1) imageFile 1
        { state := { totalPages := 2, processedPages := 2 }, trace := [] } = .done c1 ∧
      c1.state.totalPages = 2) := by
  obtain ⟨c1, h1, _, h3, _⟩ :=
    c25_empty_page_list_keeps_totals (silent 1) imageFile 1
      { state := { totalPages := 2, processedPages := 2 }, trace := [] } rfl
  exact ⟨c1, h1, h3⟩

end OpenOCR
